import Mathlib

/-!
Verification of the ZIP-to-county reapportionment and organization-count
pipeline of the Clustering-Jewish-Communities repository
(Executable/jdata_counties.py, Executable/jdata.py).

Modelling conventions (shallow embedding):
* A pandas DataFrame indexed by a 5-digit code (ZIP or FIPS) is a list of
  pairs (key, row).  Keys are natural numbers: the crosswalk stores codes
  as canonical zero-padded 5-digit strings of numbers below 100000
  (utilities.code_to_str), so the str/int round trip used by the code is a
  bijection and zfill(5) is the identity on the numeric model.
* A row of counts is a function from column labels to rationals; float
  arithmetic of numpy/pandas is modelled by exact rational arithmetic.
  Where the code sums a row over the columns of the frame, the embedding
  takes the column list explicitly.
* np.isclose(x, 1) with the numpy defaults rtol=1e-5, atol=1e-8 is
  modelled on rationals, as is math.isclose with rel_tol=1e-9, abs_tol=0.
* Raising ValueError is modelled with Except String; a .error value is a
  raised exception.
* pandas groupby(...).sum() sorts the group keys; the embedding keeps the
  keys in List.dedup order instead.  Every property proved below is about
  the key-to-row mapping or about totals, which are invariant under the
  order of rows, so the difference is immaterial.
-/

namespace JDC

/-- Column-indexed row of counts (a DataFrame row). -/

abbrev Row (ι : Type) := ι → ℚ

/-- Pointwise sum of two rows, as in pandas column-aligned addition. -/

def addRow {ι : Type} (a b : Row ι) : Row ι := fun c => a c + b c

/-- The all-zero row. -/

def zeroRow {ι : Type} : Row ι := fun _ => 0

/-- Sum of a list of rows (the groupby-sum of one group). -/

def sumRows {ι : Type} (rs : List (Row ι)) : Row ι := rs.foldr addRow zeroRow

/-- Row multiplied by a scalar weight, as in zip_cnts_df.loc[zip_] * weight. -/

def scaleRow {ι : Type} (w : ℚ) (v : Row ι) : Row ι := fun c => w * v c

/-- Sum of a row over an explicit list of columns (row.sum() over a frame
whose columns are cols). -/

def sumCols {ι : Type} (cols : List ι) (v : Row ι) : ℚ := (cols.map v).sum

/-- A keyed table: list of (index key, row), the model of a DataFrame with
a code-valued index. -/

abbrev Table (ι : Type) := List (Nat × Row ι)

/-- Index of a table, with repetitions. -/

def tblKeys {ι : Type} (t : Table ι) : List Nat := t.map Prod.fst

/-- Row lookup by index key (DataFrame.loc).  The tables this is applied
to have unique keys; on an absent key it returns the zero row (pandas
would raise KeyError, a case that never arises below). -/

def lookupRow {ι : Type} (t : Table ι) (k : Nat) : Row ι :=
  match t.find? (fun r => r.1 == k) with
  | some r => r.2
  | none => zeroRow

/-- Model of df.groupby(df.index-or-key).sum(): one output row per
distinct key, holding the sum of the rows sharing that key. -/

def groupSum {ι : Type} (rows : Table ι) : Table ι :=
  (rows.map Prod.fst).dedup.map
    (fun k => (k, sumRows ((rows.filter (fun r => r.1 == k)).map Prod.snd)))

/-- Grand total of a table over a column list (df.values.sum()). -/

def grandTotal {ι : Type} (cols : List ι) (t : Table ι) : ℚ :=
  (t.map (fun r => sumCols cols r.2)).sum

/-! ### The HUD ZIP-county crosswalk (hud_geo_conversions.read_zips_to_fips)

A crosswalk row is one (ZIP, county FIPS) pair together with the OTH
address ratio used by the reapportionment: the proportion of the
addresses of the ZIP that fall in the county.  ZIP and FIPS codes are
modelled by their numeric values (see the file header). -/

structure CWRow where
  zip : Nat
  fips : Nat
  oth_ratio : ℚ

deriving DecidableEq, Repr

/-- The crosswalk table to_fips, indexed by ZIP (with one row per
(ZIP, county) pair, so a ZIP appears once per county it maps to). -/

abbrev Crosswalk := List CWRow

/-- Absolute difference of two codes via their integer values,
np.abs(zip_arr - int(zip_)). -/

def zdist (a b : Nat) : Nat := ((a : Int) - (b : Int)).natAbs

/-- Value at the first index minimizing the absolute difference to z:
zip_arr[np.abs(zip_arr - int(zip_)).argmin()].  np.argmin on an empty
array raises, modelled by none. -/

def nearestZip (zarr : List Nat) (z : Nat) : Option Nat :=
  match zarr with
  | [] => none
  | a :: rest =>
      some (rest.foldl (fun best y => if zdist y z < zdist best z then y else best) a)

/-- Replacement applied by zip_cnts_df.rename(index=zip_ests): a ZIP
already in the crosswalk index is left alone, a missing one becomes its
nearest crosswalk ZIP (jdata_counties.py lines 292-308). -/

def replaceZip (cwZips : List Nat) (z : Nat) : Nat :=
  if z ∈ cwZips then z else (nearestZip cwZips z).getD z

/-- JDataCounties._missing_zip_to_nearest: rename ZIPs absent from the
crosswalk to their nearest numeric neighbour, then groupby(index).sum()
to merge rows whose keys now coincide. -/

def missing_zip_to_nearest {ι : Type} (zip_cnts : Table ι) (cw : Crosswalk) :
    Table ι :=
  groupSum (zip_cnts.map (fun r => (replaceZip (cw.map CWRow.zip) r.1, r.2)))

/-- np.isclose(x, 1) with the numpy defaults: |x - 1| <= atol + rtol*|1|
with atol = 1e-8, rtol = 1e-5. -/

def isclose1 (x : ℚ) : Bool := decide (|x - 1| ≤ 1/100000000 + 1/100000)

/-- The crosswalk restricted to ZIPs present in the count table,
to_fips.loc[to_fips.index.isin(zip_cnts_df.index)]. -/

def relevantRows (cw : Crosswalk) (zips : List Nat) : Crosswalk :=
  cw.filter (fun r => zips.contains r.zip)

/-- The group of crosswalk rows of one ZIP (one groupby group). -/

def zipGroup (cw : Crosswalk) (z : Nat) : Crosswalk :=
  cw.filter (fun r => r.zip == z)

/-- fips_grp.OTH_RATIO.sum() over one ZIP group. -/

def ratioSum (grp : Crosswalk) : ℚ := (grp.map CWRow.oth_ratio).sum

/-- Body of the loop over groupby groups in _zip_cnts_to_fips
(jdata_counties.py lines 248-269): weight the count row of the ZIP by
each county row of the group, using OTH_RATIO when the ratios of the
group sum to approximately 1, an even 1/len(fips_grp) split when they
sum to 0, and raising ValueError otherwise. -/

def processZip {ι : Type} (relevant : Crosswalk) (t : Table ι) (z : Nat) :
    Except String (Table ι) :=
  if isclose1 (ratioSum (zipGroup relevant z)) then
    .ok ((zipGroup relevant z).map
      (fun r => (r.fips, scaleRow r.oth_ratio (lookupRow t z))))
  else if ratioSum (zipGroup relevant z) = 0 then
    .ok ((zipGroup relevant z).map
      (fun r => (r.fips,
        scaleRow (1 / ((zipGroup relevant z).length : ℚ)) (lookupRow t z))))
  else
    .error "Ratios must total 1 to keep all orgs."

/-- Error-propagating map, the model of a Python for loop that can
raise: the first raised ValueError aborts the whole call. -/

def mapExcept {α β ε : Type} (f : α → Except ε β) : List α → Except ε (List β)
  | [] => .ok []
  | a :: as => do
    let b ← f a
    let bs ← mapExcept f as
    pure (b :: bs)

/-- JDataCounties._zip_cnts_to_fips (jdata_counties.py lines 238-272):
fix missing ZIPs, then for each ZIP group of the relevant crosswalk rows
emit one weighted count row per county of the group, concatenate, and
groupby(FIPS).sum(). -/

def zip_cnts_to_fips {ι : Type} (cw : Crosswalk) (zip_cnts : Table ι) :
    Except String (Table ι) :=
  (mapExcept
      (processZip
        (relevantRows cw (tblKeys (missing_zip_to_nearest zip_cnts cw)))
        (missing_zip_to_nearest zip_cnts cw))
      ((relevantRows cw
          (tblKeys (missing_zip_to_nearest zip_cnts cw))).map CWRow.zip).dedup).map
    (fun contribs => groupSum contribs.flatten)

/-- The weight that the loop body of _zip_cnts_to_fips effectively
applies to the crosswalk row r of the group of ZIP z: the row's own
OTH_RATIO when the ratios of the group sum to approximately 1, the even
1/len(fips_grp) split when they were imputed. -/

def groupWeight (relevant : Crosswalk) (z : Nat) (r : CWRow) : ℚ :=
  if isclose1 (ratioSum (zipGroup relevant z)) then r.oth_ratio
  else 1 / ((zipGroup relevant z).length : ℚ)

/-- The rows appended to ls for one ZIP group: one (FIPS, weighted count
row) pair per county of the group. -/

def contribRows {ι : Type} (relevant : Crosswalk) (t : Table ι) (z : Nat) :
    Table ι :=
  (zipGroup relevant z).map
    (fun r => (r.fips, scaleRow (groupWeight relevant z r) (lookupRow t z)))

/-! ### JData organization directory (jdata.py) -/

/-- Static column rename table JData.COL_NAMES. -/

def COL_NAMES : List (String × String) :=
  [("Address", "Addr"),
   ("Type of Organization", "Type"),
   ("Denominations", "Denom")]

/-- Static denomination rename table JData.DENOM_NAMES. -/

def DENOM_NAMES : List (String × String) :=
  [("Orthodox", "Orth"),
   ("Conservative", "Consv"),
   ("Reform", "Ref"),
   ("Reconstructionist", "Recon"),
   ("Community", "Comm"),
   ("Humanistic", "Hum"),
   ("Sephardic", "Seph"),
   ("Other", "Oth"),
   ("Secular", "Sec"),
   ("Traditional", "Trad"),
   ("Pluralist or Transdenominational", "PlurTrans")]

/-- Static organization-type rename table JData.TYPE_NAMES. -/

def TYPE_NAMES : List (String × String) :=
  [("Day camp", "DayCamp"),
   ("Day school", "DaySch"),
   ("Early childhood center", "EarlyChild"),
   ("Overnight camp", "OverCamp"),
   ("Part-time school", "PTSch")]

/-- Column rename via DataFrame.rename(columns=COL_NAMES): a label that
is a key of COL_NAMES becomes its short name, any other label is
unchanged. -/

def renameCol (c : String) : String :=
  match COL_NAMES.find? (fun p => p.1 == c) with
  | some p => p.2
  | none => c

/-- Per-column value replacement via DataFrame.replace with a dict: a
value that is a key of the lookup table becomes its short form, any
other value is unchanged. -/

def replaceVal (table : List (String × String)) (v : String) : String :=
  match table.find? (fun p => p.1 == v) with
  | some p => p.2
  | none => v

/-- One scraped organization record as loaded by pd.read_json, before
renaming; none models a NaN in a categorical column (the scraper stores
None for a missing category). -/

structure RawOrg where
  address : String
  orgType : Option String
  denominations : Option String

deriving DecidableEq, Repr

/-- One organization record after JData.read_orgs. -/

structure OrgRec where
  addr : String
  otype : Option String
  denom : Option String

deriving DecidableEq, Repr

/-- The rename-and-replace stage of JData.read_orgs (jdata.py lines
79-92, with the clean and only_usa flags off): column labels are renamed
via COL_NAMES, then the Type column values are replaced via TYPE_NAMES
and the Denom column values via DENOM_NAMES.  NaN values are untouched
by DataFrame.replace.  The cleaning methods behind the flags are
separate methods, not modelled here. -/

def read_orgs (cols : List String) (rows : List RawOrg) :
    List String × List OrgRec :=
  (cols.map renameCol,
   rows.map (fun o =>
     { addr := o.address
       otype := o.orgType.map (replaceVal TYPE_NAMES)
       denom := o.denominations.map (replaceVal DENOM_NAMES) }))

/-! ### Organization counting (jdata_counties.py) -/

/-- Column labels of the dummy count tables produced by
pd.get_dummies(orgs_df[[Type, Denom]], dummy_na=True): one indicator
column per Type value and per Denom value; the argument none stands for
the NaN dummy column that dummy_na always appends. -/

inductive Col where
  | type : Option String → Col
  | denom : Option String → Col

deriving DecidableEq, Repr

/-- The pandas name of a dummy column: get_dummies prefixes the column
of origin with an underscore separator, and str(np.nan) prints as nan.
The subsequent rename(columns=lambda x: re.sub(..., x)) replacing
non-word characters is the identity on the short alphanumeric category
names. -/

def colName : Col → String
  | .type (some v) => "Type_" ++ v
  | .type none => "Type_nan"
  | .denom (some v) => "Denom_" ++ v
  | .denom none => "Denom_nan"

/-- An organization row as consumed by the county aggregation: its ZIP
code and its two categorical values (none = missing). -/

structure Org where
  zip : Nat
  otype : Option String
  denom : Option String

deriving DecidableEq, Repr

/-- The dummy-indicator row of one organization: 1 in the Type column of
its type and in the Denom column of its denomination, 0 elsewhere. -/

def dummyRow (o : Org) : Row Col := fun c =>
  match c with
  | .type v => if v = o.otype then 1 else 0
  | .denom v => if v = o.denom then 1 else 0

/-- Columns of the dummy count table of a list of organizations: one
column per distinct Type and per distinct Denom value, plus the two NaN
dummy columns.  (pandas sorts the value columns; the order is immaterial
for every property proved below.) -/

def typeCols (orgs : List Org) : List Col :=
  (orgs.filterMap Org.otype).dedup.map (fun v => Col.type (some v))
    ++ [Col.type none]

/-- The Denom dummy columns of a list of organizations: one column per
distinct Denom value plus the NaN dummy column. -/
def denomColsOf (orgs : List Org) : List Col :=
  (orgs.filterMap Org.denom).dedup.map (fun v => Col.denom (some v))
    ++ [Col.denom none]

/-- Columns of the dummy count table: the Type dummy columns followed by
the Denom dummy columns. -/
def orgCols (orgs : List Org) : List Col :=
  typeCols orgs ++ denomColsOf orgs

/-- The ZIP count table of a list of organizations: the
groupby(Zip).sum() of the dummy indicator table. -/
def zipCntTable (orgs : List Org) : Table Col :=
  groupSum (orgs.map (fun o => (o.zip, dummyRow o)))

/-- JDataCounties._orgs_to_zip_cnts (jdata_counties.py lines 214-236):
raise unless at least 10 organizations have a ZIP in the conversion
table, then groupby(Zip).sum() over the dummy indicator table. -/

def orgs_to_zip_cnts (cw : Crosswalk) (orgs : List Org) :
    Except String (Table Col) :=
  if (orgs.filter (fun o => (cw.map CWRow.zip).contains o.zip)).length < 10 then
    .error "Zip codes are not valid."
  else
    .ok (zipCntTable orgs)

/-- JDataCounties._filter_incl_excl (jdata_counties.py lines 78-113).
include and exclude are lists of category values (the isinstance(str)
wrapping of a bare string is modelled by a singleton list).  The valid
value sets are the distinct Type and Denom values of the data, computed
before any filtering; isin never matches a NaN, so comparisons go
through some. -/

def filter_incl_excl (orgs : List Org) (incl excl : Option (List String)) :
    Except String (List Org) :=
  let validTypes := (orgs.map Org.otype).dedup
  let validDenoms := (orgs.map Org.denom).dedup
  let validVals := validTypes ++ validDenoms
  let step1 : Except String (List Org) :=
    match excl with
    | none => .ok orgs
    | some ex =>
        if ex.any (fun x => !(validVals.contains (some x))) then
          .error "Values to be excluded must be in data."
        else
          .ok (orgs.filter (fun o =>
            !((ex.map some).contains o.otype || (ex.map some).contains o.denom)))
  match step1 with
  | .error e => .error e
  | .ok orgs1 =>
      match incl with
      | none => .ok orgs1
      | some inc =>
          if inc.any (fun x => !(validVals.contains (some x))) then
            .error "Values to be included must be in data."
          else
            if inc.any (fun x => validTypes.contains (some x))
                && inc.any (fun x => validDenoms.contains (some x)) then
              .ok (orgs1.filter (fun o =>
                (inc.map some).contains o.otype
                  && (inc.map some).contains o.denom))
            else if inc.any (fun x => validTypes.contains (some x))
                || inc.any (fun x => validDenoms.contains (some x)) then
              .ok (orgs1.filter (fun o =>
                (inc.map some).contains o.otype
                  || (inc.map some).contains o.denom))
            else
              .ok orgs1

/-- Python list-of-characters prefix test (str.startswith). -/

def charListIsPre : List Char → List Char → Bool
  | [], _ => true
  | _ :: _, [] => false
  | p :: ps, c :: cs => p == c && charListIsPre ps cs

/-- Python substring test (the in operator on str). -/

def charListHasSub : List Char → List Char → Bool
  | _, [] => true
  | [], _ :: _ => false
  | c :: cs, p :: ps =>
      charListIsPre (p :: ps) (c :: cs) || charListHasSub cs (p :: ps)

/-- s.startswith(pre). -/

def strStarts (pre s : String) : Bool := charListIsPre pre.toList s.toList

/-- pat in s. -/

def strContains (s pat : String) : Bool := charListHasSub s.toList pat.toList

/-- weighted_dist inside _impute_denoms_county_cnts (jdata_counties.py
lines 332-346).  The Python row argument is the restriction of a county
row to the denomination columns, so sum(row) is the sum over denomCols
(the None column included) and len(row) is len(denomCols); entries
outside the denomination columns are untouched. -/

def weighted_dist {ι : Type} [DecidableEq ι] (denomCols : List ι)
    (noneCol : ι) (row : Row ι) : Row ι :=
  fun c =>
    if c ∈ denomCols then
      if sumCols denomCols row - row noneCol = 0 then
        row c + row noneCol / ((denomCols.length - 1 : ℕ) : ℚ)
      else
        row c + row c / (sumCols denomCols row - row noneCol) * row noneCol
    else row c

/-- JDataCounties._impute_denoms_county_cnts (jdata_counties.py lines
316-368), generic over the column label type, with name giving the
pandas column name of a label.  Denomination columns are those whose
name starts with Denom_; the None column is the denomination column
whose name contains None.  Rows with a positive None count are
redistributed by weighted_dist, the None column is dropped, and rows
whose remaining denomination columns sum to 0 are dropped. -/

def impute_denoms_county_cnts {ι : Type} [DecidableEq ι] (name : ι → String)
    (cols : List ι) (tbl : Table ι) :
    Except String (List ι × Table ι) :=
  let denomCols := cols.filter (fun c => strStarts "Denom_" (name c))
  if denomCols.length = 0 then
    .error "No denomination columns found"
  else
    match denomCols.filter (fun c => strContains (name c) "None") with
    | [] => .ok (cols, tbl)
    | [noneCol] =>
        .ok (cols.erase noneCol,
          (tbl.map (fun r =>
            if r.2 noneCol > 0 then (r.1, weighted_dist denomCols noneCol r.2)
            else r)).filter (fun r =>
              decide (sumCols (denomCols.erase noneCol) r.2 ≠ 0)))
    | _ => .error "More than one None category count variable not supported"

/-- JDataCounties.filter_categorical (jdata_counties.py lines 115-130):
keep only the Denom_ or only the Type_ columns, keep everything for
both, and raise for any other categorical argument.  pandas select on
axis 1 only touches the column list. -/

def filter_categorical (cols : List Col) (categorical : String) :
    Except String (List Col) :=
  if categorical = "denom" then
    .ok (cols.filter (fun c => strStarts "Denom_" (colName c)))
  else if categorical = "type" then
    .ok (cols.filter (fun c => strStarts "Type_" (colName c)))
  else if categorical ≠ "both" then
    .error "categorical arg must be either both, denom or type."
  else
    .ok cols

/-- math.isclose(a, b) with the defaults rel_tol=1e-9, abs_tol=0. -/

def mathIsclose (a b : ℚ) : Bool :=
  decide (|a - b| ≤ (1/1000000000) * max |a| |b|)

/-- The FIPS index validation of get_county_cnts (jdata_counties.py
lines 189-191): raise unless every index value of the county table is a
FIPS code of the crosswalk table. -/

def validate_fips {ι : Type} (cwFips : List Nat) (tbl : Table ι) :
    Except String Unit :=
  if tbl.all (fun r => cwFips.contains r.1) then .ok ()
  else .error "County FIPS codes index not valid"

/-- The total validation of get_county_cnts (jdata_counties.py lines
193-200): the county grand total, divided by 2 when both categoricals
were counted (each organization is counted once per categorical), must
be math.isclose to the number of source organizations.  (The Python
message interpolates the two totals; the model keeps the fixed text.) -/

def validate_total (categorical : String) (total : ℚ) (nOrgs : Nat) :
    Except String Unit :=
  if mathIsclose (total / (if categorical = "both" then 2 else 1)) (nOrgs : ℚ)
  then .ok ()
  else .error "total county counts does not match JData orgs"

/-- Static ordered denomination count columns (jdata_counties.py
DENOM_COLS). -/

def DENOM_COLS : List String :=
  ["Denom_Orth", "Denom_Seph", "Denom_Trad", "Denom_Consv",
   "Denom_Recon", "Denom_Ref", "Denom_Comm", "Denom_PlurTrans",
   "Denom_Hum", "Denom_Sec", "Denom_Oth", "Denom_NonDenom",
   "Denom_Zionist"]

/-- Static ordered type count columns (jdata_counties.py TYPE_COLS). -/

def TYPE_COLS : List String :=
  ["Type_DaySch", "Type_PTSch", "Type_EarlyChild", "Type_DayCamp",
   "Type_OverCamp"]

/-- The final reindex of get_county_cnts (jdata_counties.py lines
206-209): keep the columns whose name appears in TYPE_COLS ++
DENOM_COLS, in that static order; every other column is dropped. -/

def reindexCols (cols : List Col) : List Col :=
  (TYPE_COLS ++ DENOM_COLS).filterMap
    (fun s => cols.find? (fun c => colName c == s))

/-- The county count frame returned by get_county_cnts: the index axis
name set by rename_axis, the final column list, and the rows. -/

structure CntyFrame where
  indexName : String
  cols : List Col
  rows : Table Col

/-- JDataCounties.get_county_cnts (jdata_counties.py lines 132-212) for
an already loaded list of cleaned American organizations: optional
include/exclude filtering, aggregation to ZIP counts, reapportionment to
counties, None-denomination imputation, categorical column selection,
FIPS index validation, total validation, column reindex, and index axis
naming. -/

def get_county_cnts (cw : Crosswalk) (orgs : List Org) (categorical : String)
    (incl excl : Option (List String)) : Except String CntyFrame :=
  if incl.isSome ∧ excl.isSome then
    .error "Cannot pass both include and exclude kwargs."
  else
    match (if incl.isSome ∨ excl.isSome
           then filter_incl_excl orgs incl excl else .ok orgs) with
    | .error e => .error e
    | .ok orgs2 =>
        match orgs_to_zip_cnts cw orgs2 with
        | .error e => .error e
        | .ok zipTbl =>
            match zip_cnts_to_fips cw zipTbl with
            | .error e => .error e
            | .ok cnty =>
                match impute_denoms_county_cnts colName (orgCols orgs2) cnty with
                | .error e => .error e
                | .ok (cols1, cnty1) =>
                    match filter_categorical cols1 categorical with
                    | .error e => .error e
                    | .ok cols2 =>
                        match validate_fips (cw.map CWRow.fips) cnty1 with
                        | .error e => .error e
                        | .ok _ =>
                            match validate_total categorical
                                (grandTotal cols2 cnty1) orgs2.length with
                            | .error e => .error e
                            | .ok _ =>
                                .ok ⟨"FIPS", reindexCols cols2, cnty1⟩

/-- Concrete crosswalk used by the witnesses: one ZIP (numeric value 1)
split over two counties with OTH ratios 3/10 and 7/10. -/
def cwEx : Crosswalk := [⟨1, 10, 3/10⟩, ⟨1, 20, 7/10⟩]

/-- Concrete crosswalk with entirely missing (zero) OTH ratios. -/
def cwEx0 : Crosswalk := [⟨1, 10, 0⟩, ⟨1, 20, 0⟩]

/-- Concrete crosswalk whose ratios sum to 3/4: neither close to 1 nor 0. -/
def cwExBad : Crosswalk := [⟨1, 10, 1/2⟩, ⟨1, 20, 1/4⟩]

/-- Concrete one-ZIP count table over a single (unit) column. -/
def tEx : Table Unit := [(1, fun _ => 4)]

/-- Crosswalk whose OTH ratios sum to 1 + 1/200000: inside the
np.isclose tolerance of 1 but not exactly 1. -/
def cwC5 : Crosswalk := [⟨1, 10, 1/2 + 1/200000⟩, ⟨1, 20, 1/2⟩]

/-- One-ZIP count table over a single unit column with total 2 (one
organization counted once per categorical). -/
def t1 : Table Unit := [(1, fun _ => 2)]

/-- Ten identical organizations in ZIP 1, with type T and denomination
D, enough to pass the 10-organization guard. -/
def orgs10 : List Org := List.replicate 10 ⟨1, some "T", some "D"⟩

/-- Concrete organization list with two types and two denominations. -/
def orgsEx : List Org :=
  [⟨1, some "DaySch", some "Orth"⟩, ⟨2, some "PTSch", some "Ref"⟩]

/-- Concrete count table whose first ZIP (numeric value 5) is absent
from the crosswalk cwEx. -/
def tExM : Table Unit := [(5, fun _ => 4), (1, fun _ => 2)]

theorem addRow_apply {ι : Type} (a b : Row ι) (c : ι) :
    addRow a b c = a c + b c := rfl

theorem sumRows_nil {ι : Type} : sumRows ([] : List (Row ι)) = zeroRow := rfl

theorem sumRows_cons {ι : Type} (v : Row ι) (rs : List (Row ι)) :
    sumRows (v :: rs) = addRow v (sumRows rs) := rfl

theorem sumRows_apply {ι : Type} (rs : List (Row ι)) (c : ι) :
    sumRows rs c = (rs.map (fun v => v c)).sum := by
  induction rs with
  | nil => rfl
  | cons v rs ih =>
      show addRow v (sumRows rs) c = _
      rw [addRow_apply, ih]
      simp

theorem sumCols_addRow {ι : Type} (cols : List ι) (a b : Row ι) :
    sumCols cols (addRow a b) = sumCols cols a + sumCols cols b := by
  induction cols with
  | nil => simp [sumCols]
  | cons c cs ih =>
      simp only [sumCols, List.map_cons, List.sum_cons, addRow] at *
      rw [ih]; ring

theorem sumCols_zeroRow {ι : Type} (cols : List ι) :
    sumCols cols (zeroRow : Row ι) = 0 := by
  induction cols with
  | nil => rfl
  | cons c cs ih =>
      simp only [sumCols, List.map_cons, List.sum_cons]
      have hc : zeroRow c = (0:ℚ) := rfl
      rw [hc, zero_add]
      exact ih

theorem sumCols_scaleRow {ι : Type} (cols : List ι) (w : ℚ) (v : Row ι) :
    sumCols cols (scaleRow w v) = w * sumCols cols v := by
  induction cols with
  | nil => simp [sumCols]
  | cons c cs ih =>
      simp only [sumCols, List.map_cons, List.sum_cons, scaleRow] at *
      rw [ih]; ring

theorem sumCols_sumRows {ι : Type} (cols : List ι) (rs : List (Row ι)) :
    sumCols cols (sumRows rs) = (rs.map (sumCols cols)).sum := by
  induction rs with
  | nil => simp [sumRows_nil, sumCols_zeroRow]
  | cons v rs ih => simp [sumRows_cons, sumCols_addRow, ih]

/-- find? over rows built from a duplicate-free key list locates exactly
the row of the key sought. -/
theorem find?_map_of_nodup {β : Type} (g : Nat → β) :
    ∀ (l : List Nat), l.Nodup → ∀ k : Nat,
    (l.map (fun j => (j, g j))).find? (fun r => r.1 == k)
      = if k ∈ l then some (k, g k) else none := by
  intro l
  induction l with
  | nil => intro _ k; simp
  | cons a l ih =>
      intro hnd k
      rcases List.nodup_cons.mp hnd with ⟨ha, hl⟩
      by_cases hk : a = k
      · subst hk
        simp [List.find?_cons, List.mem_cons]
      · rw [List.map_cons, List.find?_cons]
        have hfalse : ((a, g a).1 == k) = false := by
          simp [hk]
        rw [hfalse, ih hl k]
        have hk2 : ¬ (k = a) := fun e => hk e.symm
        by_cases hmem : k ∈ l
        · simp [hmem, List.mem_cons]
        · simp [hmem, List.mem_cons, hk2]

theorem lookupRow_groupSum {ι : Type} (rows : Table ι) (k : Nat)
    (hk : k ∈ rows.map Prod.fst) :
    lookupRow (groupSum rows) k
      = sumRows ((rows.filter (fun r => r.1 == k)).map Prod.snd) := by
  unfold lookupRow groupSum
  rw [find?_map_of_nodup _ _ (List.nodup_dedup _) k]
  simp [List.mem_dedup.mpr hk]

theorem map_fst_map_pair {β : Type} (g : Nat → β) (l : List Nat) :
    (l.map (fun k => (k, g k))).map Prod.fst = l := by
  induction l with
  | nil => rfl
  | cons a l ih => simp [ih]

theorem tblKeys_groupSum {ι : Type} (rows : Table ι) :
    tblKeys (groupSum rows) = (rows.map Prod.fst).dedup := by
  unfold tblKeys groupSum
  exact map_fst_map_pair _ _

theorem mem_tblKeys_groupSum {ι : Type} (rows : Table ι) (k : Nat) :
    k ∈ tblKeys (groupSum rows) ↔ k ∈ rows.map Prod.fst := by
  rw [tblKeys_groupSum]; exact List.mem_dedup

/-- Summing an indicator over a duplicate-free list picks out one term. -/
theorem sum_ite_eq_of_nodup {α : Type} [DecidableEq α] (x : ℚ) :
    ∀ (l : List α), l.Nodup → ∀ a : α, a ∈ l →
    (l.map (fun k => if k = a then x else 0)).sum = x := by
  intro l
  induction l with
  | nil => intro _ a ha; cases ha
  | cons b l ih =>
      intro hnd a ha
      rcases List.nodup_cons.mp hnd with ⟨hb, hl⟩
      rcases List.mem_cons.mp ha with h | h
      · simp only [h]
        rw [List.map_cons, List.sum_cons]
        have hz : (List.map (fun k => if k = b then x else (0:ℚ)) l).sum = 0 := by
          apply List.sum_eq_zero
          intro y hy
          rcases List.mem_map.mp hy with ⟨k, hk, rfl⟩
          have hne : ¬ (k = b) := fun e => hb (e ▸ hk)
          simp [hne]
        rw [hz]
        simp
      · have hba : ¬ (b = a) := fun e => hb (by rw [e]; exact h)
        rw [List.map_cons, List.sum_cons, ih hl a h]
        simp [hba]

/-- Fiberwise decomposition of a sum over rows: summing the groups of a
groupby over all distinct keys recovers the total over the rows. -/
theorem sum_fiberwise {α : Type} (key : α → Nat) (f : α → ℚ) :
    ∀ (ks : List Nat), ks.Nodup →
    ∀ (rows : List α), (∀ r ∈ rows, key r ∈ ks) →
    (ks.map (fun k => ((rows.filter (fun r => key r == k)).map f).sum)).sum
      = (rows.map f).sum := by
  intro ks hks rows
  induction rows with
  | nil => intro _; simp
  | cons r rows ih =>
      intro hmem
      have hr : key r ∈ ks := hmem r (List.mem_cons_self r rows)
      have hrows : ∀ q ∈ rows, key q ∈ ks := fun q hq =>
        hmem q (List.mem_cons_of_mem r hq)
      have step : ∀ k : Nat,
          ((List.filter (fun q => key q == k) (r :: rows)).map f).sum
            = (if k = key r then f r else 0)
              + ((rows.filter (fun q => key q == k)).map f).sum := by
        intro k
        rw [List.filter_cons]
        by_cases h : key r = k
        · rw [h]
          simp
        · have hfalse : (key r == k) = false := by simp [h]
          have h2 : ¬ (k = key r) := fun e => h e.symm
          rw [hfalse]
          simp [h2]
      calc (ks.map (fun k =>
              ((List.filter (fun q => key q == k) (r :: rows)).map f).sum)).sum
          = (ks.map (fun k => (if k = key r then f r else 0)
              + ((rows.filter (fun q => key q == k)).map f).sum)).sum := by
            exact congrArg _ (List.map_congr_left (fun k _ => step k))
        _ = (ks.map (fun k => if k = key r then f r else 0)).sum
              + (ks.map (fun k =>
                  ((rows.filter (fun q => key q == k)).map f).sum)).sum := by
            rw [← List.sum_map_add]
        _ = f r + (rows.map f).sum := by
            rw [sum_ite_eq_of_nodup (f r) ks hks (key r) hr, ih hrows]
        _ = ((r :: rows).map f).sum := by simp

theorem grandTotal_groupSum {ι : Type} (cols : List ι) (rows : Table ι) :
    grandTotal cols (groupSum rows) = grandTotal cols rows := by
  unfold grandTotal groupSum
  rw [List.map_map]
  have hstep : ∀ k : Nat,
      ((fun r : Nat × Row ι => sumCols cols r.2) ∘
        fun k => (k, sumRows ((rows.filter (fun r => r.1 == k)).map Prod.snd))) k
      = ((rows.filter (fun r => r.1 == k)).map
          (fun r => sumCols cols r.2)).sum := by
    intro k
    show sumCols cols (sumRows ((rows.filter (fun r => r.1 == k)).map Prod.snd)) = _
    rw [sumCols_sumRows, List.map_map]
    rfl
  rw [List.map_congr_left (fun k _ => hstep k)]
  exact sum_fiberwise Prod.fst (fun r => sumCols cols r.2)
    (rows.map Prod.fst).dedup (List.nodup_dedup _) rows
    (fun r hr => List.mem_dedup.mpr (List.mem_map_of_mem Prod.fst hr))

theorem not_isclose1_zero : isclose1 0 = false := by
  unfold isclose1
  norm_num

theorem processZip_ok_good {ι : Type} (relevant : Crosswalk) (t : Table ι)
    (z : Nat)
    (h : isclose1 (ratioSum (zipGroup relevant z)) = true
      ∨ ratioSum (zipGroup relevant z) = 0) :
    processZip relevant t z = .ok (contribRows relevant t z) := by
  unfold processZip contribRows
  rcases h with h | h
  · rw [if_pos h]
    congr 1
    apply List.map_congr_left
    intro r _
    unfold groupWeight
    rw [if_pos h]
  · have hfalse : isclose1 (ratioSum (zipGroup relevant z)) = false := by
      rw [h]
      exact not_isclose1_zero
    rw [if_neg (by simp [hfalse]), if_pos h]
    congr 1
    apply List.map_congr_left
    intro r _
    unfold groupWeight
    rw [if_neg (by simp [hfalse])]

theorem processZip_error {ι : Type} (relevant : Crosswalk) (t : Table ι)
    (z : Nat)
    (h1 : isclose1 (ratioSum (zipGroup relevant z)) = false)
    (h2 : ratioSum (zipGroup relevant z) ≠ 0) :
    processZip relevant t z = .error "Ratios must total 1 to keep all orgs." := by
  unfold processZip
  rw [if_neg (by simp [h1]), if_neg h2]

theorem foldl_nearest_spec (z : Nat) :
    ∀ (l : List Nat) (a : Nat),
    ((l.foldl (fun best y => if zdist y z < zdist best z then y else best) a) = a
      ∨ (l.foldl (fun best y => if zdist y z < zdist best z then y else best) a) ∈ l)
    ∧ zdist (l.foldl (fun best y => if zdist y z < zdist best z then y else best) a) z
        ≤ zdist a z
    ∧ (∀ y ∈ l,
        zdist (l.foldl (fun best y => if zdist y z < zdist best z then y else best) a) z
          ≤ zdist y z) := by
  intro l
  induction l with
  | nil =>
      intro a
      exact ⟨Or.inl rfl, le_refl _, fun y hy => absurd hy (List.not_mem_nil y)⟩
  | cons b l ih =>
      intro a
      rw [List.foldl_cons]
      rcases ih (if zdist b z < zdist a z then b else a) with ⟨hmem, hle, hall⟩
      refine ⟨?_, ?_, ?_⟩
      · rcases hmem with h | h
        · rw [h]
          by_cases hb : zdist b z < zdist a z
          · rw [if_pos hb]
            exact Or.inr (List.mem_cons_self _ _)
          · rw [if_neg hb]
            exact Or.inl rfl
        · exact Or.inr (List.mem_cons_of_mem _ h)
      · refine le_trans hle ?_
        by_cases hb : zdist b z < zdist a z
        · rw [if_pos hb]
          exact le_of_lt hb
        · rw [if_neg hb]
      · intro y hy
        rcases List.mem_cons.mp hy with h | h
        · rw [h]
          refine le_trans hle ?_
          by_cases hb : zdist b z < zdist a z
          · rw [if_pos hb]
          · rw [if_neg hb]
            exact le_of_not_lt hb
        · exact hall y h

theorem nearestZip_spec (zarr : List Nat) (z : Nat) (h : zarr ≠ []) :
    ∃ m, nearestZip zarr z = some m ∧ m ∈ zarr ∧
      ∀ y ∈ zarr, zdist m z ≤ zdist y z := by
  match zarr, h with
  | a :: rest, _ =>
    rcases foldl_nearest_spec z rest a with ⟨hmem, hle, hall⟩
    refine ⟨_, rfl, ?_, ?_⟩
    · rcases hmem with h1 | h1
      · rw [h1]
        exact List.mem_cons_self _ _
      · exact List.mem_cons_of_mem _ h1
    · intro y hy
      rcases List.mem_cons.mp hy with h1 | h1
      · rw [h1]
        exact hle
      · exact hall y h1

theorem replaceZip_mem (cwZips : List Nat) (z : Nat) (h : cwZips ≠ []) :
    replaceZip cwZips z ∈ cwZips := by
  unfold replaceZip
  by_cases hz : z ∈ cwZips
  · rw [if_pos hz]
    exact hz
  · rw [if_neg hz]
    rcases nearestZip_spec cwZips z h with ⟨m, hm, hmem, _⟩
    rw [hm]
    exact hmem

theorem replaceZip_nearest (cwZips : List Nat) (z : Nat) (h : cwZips ≠ [])
    (hz : z ∉ cwZips) :
    replaceZip cwZips z ∈ cwZips
      ∧ ∀ y ∈ cwZips, zdist (replaceZip cwZips z) z ≤ zdist y z := by
  unfold replaceZip
  rw [if_neg hz]
  rcases nearestZip_spec cwZips z h with ⟨m, hm, hmem, hmin⟩
  rw [hm]
  exact ⟨hmem, hmin⟩

theorem missing_zip_keys_subset {ι : Type} (t : Table ι) (cw : Crosswalk)
    (h : cw.map CWRow.zip ≠ []) :
    ∀ k ∈ tblKeys (missing_zip_to_nearest t cw), k ∈ cw.map CWRow.zip := by
  intro k hk
  unfold missing_zip_to_nearest at hk
  rw [mem_tblKeys_groupSum, List.map_map] at hk
  rcases List.mem_map.mp hk with ⟨r, _, hrk⟩
  rw [← hrk]
  exact replaceZip_mem _ _ h

theorem missing_zip_of_subset {ι : Type} (t : Table ι) (cw : Crosswalk)
    (hsub : ∀ k ∈ tblKeys t, k ∈ cw.map CWRow.zip) :
    missing_zip_to_nearest t cw = groupSum t := by
  unfold missing_zip_to_nearest
  have hcong : ∀ r ∈ t, (replaceZip (cw.map CWRow.zip) r.1, r.2) = id r := by
    intro r hr
    have hk : r.1 ∈ cw.map CWRow.zip :=
      hsub r.1 (List.mem_map_of_mem Prod.fst hr)
    show (replaceZip (cw.map CWRow.zip) r.1, r.2) = r
    unfold replaceZip
    rw [if_pos hk]
  rw [List.map_congr_left hcong, List.map_id]

theorem filter_singleton_of_nodup {ι : Type} :
    ∀ (t : Table ι), (tblKeys t).Nodup → ∀ k, k ∈ tblKeys t →
    ∃ v, t.filter (fun r => r.1 == k) = [(k, v)] ∧ lookupRow t k = v := by
  intro t
  induction t with
  | nil => intro _ k hk; cases hk
  | cons r t ih =>
      intro hnd k hk
      have hnd2 : (tblKeys t).Nodup := (List.nodup_cons.mp hnd).2
      have hr1 : r.1 ∉ tblKeys t := (List.nodup_cons.mp hnd).1
      rcases List.mem_cons.mp hk with h | h
      · have hnone : t.filter (fun q => q.1 == k) = [] := by
          apply List.filter_eq_nil_iff.mpr
          intro q hq
          have : q.1 ∈ tblKeys t := List.mem_map_of_mem Prod.fst hq
          have hne : ¬ (q.1 = k) := by
            intro e
            rw [e, h] at this
            exact hr1 this
          simp [hne]
        refine ⟨r.2, ?_, ?_⟩
        · rw [List.filter_cons]
          have htrue : (r.1 == k) = true := by simp [h]
          rw [htrue, hnone]
          rw [h]
          simp
        · unfold lookupRow
          rw [List.find?_cons]
          have : (r.1 == k) = true := by simp [h]
          rw [this]
      · have hne : ¬ (r.1 = k) := by
          intro e
          rw [e] at hr1
          exact hr1 h
        rcases ih hnd2 k h with ⟨v, hfil, hlook⟩
        refine ⟨v, ?_, ?_⟩
        · rw [List.filter_cons]
          have : (r.1 == k) = false := by simp [hne]
          rw [this]
          simpa using hfil
        · unfold lookupRow
          rw [List.find?_cons]
          have : (r.1 == k) = false := by simp [hne]
          rw [this]
          exact hlook

theorem lookupRow_groupSum_nodup {ι : Type} (t : Table ι)
    (hnd : (tblKeys t).Nodup) (k : Nat) (hk : k ∈ tblKeys t) (c : ι) :
    lookupRow (groupSum t) k c = lookupRow t k c := by
  rcases filter_singleton_of_nodup t hnd k hk with ⟨v, hfil, hlook⟩
  rw [lookupRow_groupSum t k hk, hfil, hlook]
  show addRow v zeroRow c = v c
  rw [addRow_apply]
  show v c + 0 = v c
  ring

theorem mapExcept_ok_of_forall {α β ε : Type} (f : α → Except ε β)
    (g : α → β) :
    ∀ (l : List α), (∀ a ∈ l, f a = .ok (g a)) →
    mapExcept f l = .ok (l.map g) := by
  intro l
  induction l with
  | nil => intro _; rfl
  | cons a as ih =>
      intro h
      have ha := h a (List.mem_cons_self a as)
      have has := ih (fun x hx => h x (List.mem_cons_of_mem a hx))
      simp only [mapExcept, ha, has]
      rfl

theorem mapExcept_error {α β ε : Type} (f : α → Except ε β) (e : ε) :
    ∀ (l : List α), (∀ x ∈ l, f x = .error e ∨ ∃ y, f x = .ok y) →
    (∃ a ∈ l, f a = .error e) →
    mapExcept f l = .error e := by
  intro l
  induction l with
  | nil => rintro _ ⟨a, ha, _⟩; cases ha
  | cons a as ih =>
      rintro hall ⟨b, hb, hbe⟩
      rcases hall a (List.mem_cons_self a as) with ha | ⟨y, hy⟩
      · simp only [mapExcept, ha]
        rfl
      · have hbas : b ∈ as := by
          rcases List.mem_cons.mp hb with h | h
          · exfalso
            rw [h] at hbe
            rw [hbe] at hy
            cases hy
          · exact h
        have := ih (fun x hx => hall x (List.mem_cons_of_mem a hx)) ⟨b, hbas, hbe⟩
        simp only [mapExcept, hy, this]
        rfl

theorem mem_tblKeys_of_relevant {ι : Type} (cw : Crosswalk) (t : Table ι) :
    ∀ r ∈ relevantRows cw (tblKeys t), r.zip ∈ tblKeys t := by
  intro r hr
  have h := List.of_mem_filter hr
  simpa using h

theorem zip_cnts_to_fips_spec {ι : Type} (cw : Crosswalk) (t : Table ι)
    (hnd : (tblKeys t).Nodup)
    (hsub : ∀ k ∈ tblKeys t, k ∈ cw.map CWRow.zip)
    (hgood : ∀ z ∈ tblKeys t,
      isclose1 (ratioSum (zipGroup (relevantRows cw (tblKeys t)) z)) = true
        ∨ ratioSum (zipGroup (relevantRows cw (tblKeys t)) z) = 0) :
    ∃ out, zip_cnts_to_fips cw t = .ok out
      ∧ (∀ f, f ∈ tblKeys out ↔ f ∈ (relevantRows cw (tblKeys t)).map CWRow.fips)
      ∧ ∀ f ∈ tblKeys out, ∀ c,
          lookupRow out f c
            = (((relevantRows cw (tblKeys t)).filter (fun r => r.fips == f)).map
                (fun r => groupWeight (relevantRows cw (tblKeys t)) r.zip r
                  * lookupRow t r.zip c)).sum := by
  have hfix : missing_zip_to_nearest t cw = groupSum t :=
    missing_zip_of_subset t cw hsub
  have hkeys : tblKeys (groupSum t) = tblKeys t := by
    rw [tblKeys_groupSum]
    exact List.dedup_eq_self.mpr hnd
  have hzin : ∀ r ∈ relevantRows cw (tblKeys t), r.zip ∈ tblKeys t :=
    mem_tblKeys_of_relevant cw t
  have hmapex : mapExcept
        (processZip (relevantRows cw (tblKeys t)) (groupSum t))
        (((relevantRows cw (tblKeys t)).map CWRow.zip).dedup)
      = .ok ((((relevantRows cw (tblKeys t)).map CWRow.zip).dedup).map
          (contribRows (relevantRows cw (tblKeys t)) (groupSum t))) := by
    apply mapExcept_ok_of_forall
    intro z hz
    apply processZip_ok_good
    rcases List.mem_map.mp (List.mem_dedup.mp hz) with ⟨r, hr, hzr⟩
    rw [← hzr]
    exact hgood r.zip (hzin r hr)
  refine ⟨groupSum ((((relevantRows cw (tblKeys t)).map CWRow.zip).dedup).map
      (contribRows (relevantRows cw (tblKeys t)) (groupSum t))).flatten,
      ?_, ?_, ?_⟩
  · unfold zip_cnts_to_fips
    rw [hfix, hkeys, hmapex]
    rfl
  · intro f
    rw [mem_tblKeys_groupSum]
    constructor
    · intro hf
      rcases List.mem_map.mp hf with ⟨q, hq, hqf⟩
      rcases List.mem_flatten.mp hq with ⟨L, hL, hqL⟩
      rcases List.mem_map.mp hL with ⟨z, _, hzL⟩
      rw [← hzL] at hqL
      rcases List.mem_map.mp hqL with ⟨r, hr, hrq⟩
      rw [← hqf, ← hrq]
      exact List.mem_map_of_mem CWRow.fips (List.mem_of_mem_filter hr)
    · intro hf
      rcases List.mem_map.mp hf with ⟨r, hr, hrf⟩
      apply List.mem_map.mpr
      refine ⟨(r.fips,
        scaleRow (groupWeight (relevantRows cw (tblKeys t)) r.zip r)
          (lookupRow (groupSum t) r.zip)), ?_, hrf⟩
      apply List.mem_flatten.mpr
      refine ⟨contribRows (relevantRows cw (tblKeys t)) (groupSum t) r.zip,
        ?_, ?_⟩
      · exact List.mem_map_of_mem _
          (List.mem_dedup.mpr (List.mem_map_of_mem CWRow.zip hr))
      · unfold contribRows
        apply List.mem_map.mpr
        refine ⟨r, ?_, rfl⟩
        unfold zipGroup
        apply List.mem_filter.mpr
        exact ⟨hr, by simp⟩
  · intro f hf c
    have hf' : f ∈ ((((relevantRows cw (tblKeys t)).map CWRow.zip).dedup).map
        (contribRows (relevantRows cw (tblKeys t)) (groupSum t))).flatten.map
          Prod.fst := by
      rw [← mem_tblKeys_groupSum]
      exact hf
    rw [lookupRow_groupSum _ f hf', sumRows_apply, List.map_map,
      List.filter_flatten, List.map_flatten, List.sum_flatten,
      List.map_map, List.map_map]
    rw [List.map_map]
    have hinner : ∀ z ∈ ((relevantRows cw (tblKeys t)).map CWRow.zip).dedup,
        (((List.sum ∘ List.map ((fun v => v c) ∘ Prod.snd)) ∘
          List.filter (fun r => r.1 == f)) ∘
          contribRows (relevantRows cw (tblKeys t)) (groupSum t)) z
        = ((((relevantRows cw (tblKeys t)).filter
              (fun r => r.fips == f)).filter (fun r => r.zip == z)).map
            (fun r => groupWeight (relevantRows cw (tblKeys t)) r.zip r
              * lookupRow t r.zip c)).sum := by
      intro z hz
      show ((((contribRows (relevantRows cw (tblKeys t)) (groupSum t) z).filter
          (fun r => r.1 == f)).map ((fun v => v c) ∘ Prod.snd))).sum = _
      unfold contribRows
      rw [List.filter_map, List.map_map]
      have hsets : (zipGroup (relevantRows cw (tblKeys t)) z).filter
            ((fun r => r.1 == f) ∘ fun r =>
              (r.fips, scaleRow (groupWeight (relevantRows cw (tblKeys t)) z r)
                (lookupRow (groupSum t) z)))
          = ((relevantRows cw (tblKeys t)).filter
              (fun r => r.fips == f)).filter (fun r => r.zip == z) := by
        unfold zipGroup
        rw [List.filter_filter, List.filter_filter]
        apply List.filter_congr
        intro r _
        show (r.fips == f && r.zip == z) = (r.zip == z && r.fips == f)
        rw [Bool.and_comm]
      rw [hsets]
      apply congrArg
      apply List.map_congr_left
      intro r hr
      have hrz : r.zip = z := by
        have := List.of_mem_filter hr
        simpa using this
      have hrt : r.zip ∈ tblKeys t :=
        hzin r (List.mem_of_mem_filter (List.mem_of_mem_filter hr))
      show groupWeight (relevantRows cw (tblKeys t)) z r
          * lookupRow (groupSum t) z c = _
      rw [← hrz, lookupRow_groupSum_nodup t hnd r.zip hrt c]
    rw [List.map_congr_left hinner]
    exact sum_fiberwise CWRow.zip
      (fun r => groupWeight (relevantRows cw (tblKeys t)) r.zip r
        * lookupRow t r.zip c)
      (((relevantRows cw (tblKeys t)).map CWRow.zip).dedup)
      (List.nodup_dedup _)
      ((relevantRows cw (tblKeys t)).filter (fun r => r.fips == f))
      (fun r hr => List.mem_dedup.mpr
        (List.mem_map_of_mem CWRow.zip (List.mem_of_mem_filter hr)))

theorem isclose1_one : isclose1 1 = true := by
  unfold isclose1
  norm_num

theorem lookupRow_cons_self {ι : Type} (r : Nat × Row ι) (u : Table ι) :
    lookupRow (r :: u) r.1 = r.2 := by
  unfold lookupRow
  rw [List.find?_cons_of_pos]
  simp

theorem lookupRow_cons_ne {ι : Type} (r : Nat × Row ι) (u : Table ι) (k : Nat)
    (h : ¬ (r.1 = k)) : lookupRow (r :: u) k = lookupRow u k := by
  unfold lookupRow
  rw [List.find?_cons_of_neg]
  simp [h]

theorem sum_map_const_q {α : Type} (l : List α) (q : ℚ) :
    (l.map (fun _ => q)).sum = (l.length : ℚ) * q := by
  induction l with
  | nil => simp
  | cons a l ih =>
      rw [List.map_cons, List.sum_cons, ih, List.length_cons]
      push_cast
      ring

/-- On a table with duplicate-free keys, the grand total is the sum of the
per-key row totals. -/
theorem grandTotal_keys {ι : Type} (cols : List ι) :
    ∀ (u : Table ι), (tblKeys u).Nodup →
    grandTotal cols u
      = ((tblKeys u).map (fun k => sumCols cols (lookupRow u k))).sum := by
  intro u
  induction u with
  | nil => intro _; rfl
  | cons r u ih =>
      intro hnd
      have hr1 : r.1 ∉ tblKeys u := (List.nodup_cons.mp hnd).1
      have hnd2 : (tblKeys u).Nodup := (List.nodup_cons.mp hnd).2
      show (List.map (fun q => sumCols cols q.2) (r :: u)).sum = _
      rw [List.map_cons, List.sum_cons]
      have hkeys : tblKeys (r :: u) = r.1 :: tblKeys u := rfl
      rw [hkeys, List.map_cons, List.sum_cons, lookupRow_cons_self]
      have hcong : ∀ k ∈ tblKeys u,
          sumCols cols (lookupRow (r :: u) k) = sumCols cols (lookupRow u k) := by
        intro k hk
        have hne : ¬ (r.1 = k) := fun e => hr1 (e ▸ hk)
        rw [lookupRow_cons_ne r u k hne]
      rw [List.map_congr_left hcong, ← ih hnd2]
      rfl

/-- Renaming the index keys of a table leaves its grand total unchanged. -/
theorem grandTotal_map_reindex {ι : Type} (cols : List ι) (t : Table ι)
    (φ : Nat → Nat) :
    grandTotal cols (t.map (fun r => (φ r.1, r.2))) = grandTotal cols t := by
  unfold grandTotal
  rw [List.map_map]
  rfl

/-- Grand total of a concatenation of tables. -/
theorem grandTotal_flatten {ι : Type} (cols : List ι) (L : List (Table ι)) :
    grandTotal cols L.flatten = (L.map (grandTotal cols)).sum := by
  unfold grandTotal
  rw [List.map_flatten, List.sum_flatten, List.map_map]
  rfl

/-- Mass conservation of the reapportionment: when every relevant ZIP
group has OTH ratios summing exactly to 1, or summing to 0 and hence
imputed to an even split, _zip_cnts_to_fips succeeds and the grand total
of the county table equals the grand total of the ZIP count table. -/
theorem zip_cnts_to_fips_conserves {ι : Type} (cols : List ι)
    (cw : Crosswalk) (t : Table ι)
    (hcw : cw.map CWRow.zip ≠ [])
    (hex : ∀ z ∈ tblKeys (missing_zip_to_nearest t cw),
      ratioSum (zipGroup
          (relevantRows cw (tblKeys (missing_zip_to_nearest t cw))) z) = 1
        ∨ ratioSum (zipGroup
            (relevantRows cw (tblKeys (missing_zip_to_nearest t cw))) z) = 0) :
    ∃ out, zip_cnts_to_fips cw t = .ok out
      ∧ grandTotal cols out = grandTotal cols t := by
  have hzin : ∀ r ∈ relevantRows cw (tblKeys (missing_zip_to_nearest t cw)),
      r.zip ∈ tblKeys (missing_zip_to_nearest t cw) :=
    mem_tblKeys_of_relevant cw (missing_zip_to_nearest t cw)
  have hgood : ∀ z ∈ ((relevantRows cw
        (tblKeys (missing_zip_to_nearest t cw))).map CWRow.zip).dedup,
      isclose1 (ratioSum (zipGroup
          (relevantRows cw (tblKeys (missing_zip_to_nearest t cw))) z)) = true
        ∨ ratioSum (zipGroup
            (relevantRows cw (tblKeys (missing_zip_to_nearest t cw))) z) = 0 := by
    intro z hz
    rcases List.mem_map.mp (List.mem_dedup.mp hz) with ⟨r, hr, hzr⟩
    rcases hex z (hzr ▸ hzin r hr) with h | h
    · left
      rw [h]
      exact isclose1_one
    · right
      exact h
  have hmapex : mapExcept
        (processZip (relevantRows cw (tblKeys (missing_zip_to_nearest t cw)))
          (missing_zip_to_nearest t cw))
        (((relevantRows cw
            (tblKeys (missing_zip_to_nearest t cw))).map CWRow.zip).dedup)
      = .ok ((((relevantRows cw
            (tblKeys (missing_zip_to_nearest t cw))).map CWRow.zip).dedup).map
          (contribRows
            (relevantRows cw (tblKeys (missing_zip_to_nearest t cw)))
            (missing_zip_to_nearest t cw))) := by
    apply mapExcept_ok_of_forall
    intro z hz
    exact processZip_ok_good _ _ z (hgood z hz)
  refine ⟨groupSum ((((relevantRows cw
        (tblKeys (missing_zip_to_nearest t cw))).map CWRow.zip).dedup).map
      (contribRows (relevantRows cw (tblKeys (missing_zip_to_nearest t cw)))
        (missing_zip_to_nearest t cw))).flatten, ?_, ?_⟩
  · unfold zip_cnts_to_fips
    rw [hmapex]
    rfl
  · rw [grandTotal_groupSum, grandTotal_flatten, List.map_map]
    have hone : ∀ z ∈ ((relevantRows cw
          (tblKeys (missing_zip_to_nearest t cw))).map CWRow.zip).dedup,
        (grandTotal cols ∘ contribRows
            (relevantRows cw (tblKeys (missing_zip_to_nearest t cw)))
            (missing_zip_to_nearest t cw)) z
          = sumCols cols (lookupRow (missing_zip_to_nearest t cw) z) := by
      intro z hz
      rcases List.mem_map.mp (List.mem_dedup.mp hz) with ⟨r0, hr0, hzr0⟩
      have hgrp : r0 ∈ zipGroup
          (relevantRows cw (tblKeys (missing_zip_to_nearest t cw))) z := by
        unfold zipGroup
        apply List.mem_filter.mpr
        exact ⟨hr0, by simp [hzr0]⟩
      have hlen : ((zipGroup (relevantRows cw
          (tblKeys (missing_zip_to_nearest t cw))) z).length : ℚ) ≠ 0 := by
        have : 0 < (zipGroup (relevantRows cw
            (tblKeys (missing_zip_to_nearest t cw))) z).length :=
          List.length_pos.mpr (List.ne_nil_of_mem hgrp)
        exact_mod_cast Nat.pos_iff_ne_zero.mp this
      show grandTotal cols (contribRows _ _ z) = _
      unfold grandTotal contribRows
      rw [List.map_map]
      have hterm : ∀ r ∈ zipGroup
          (relevantRows cw (tblKeys (missing_zip_to_nearest t cw))) z,
          ((fun q : Nat × Row ι => sumCols cols q.2) ∘ fun r =>
            (r.fips, scaleRow (groupWeight
              (relevantRows cw (tblKeys (missing_zip_to_nearest t cw))) z r)
              (lookupRow (missing_zip_to_nearest t cw) z))) r
          = groupWeight
              (relevantRows cw (tblKeys (missing_zip_to_nearest t cw))) z r
            * sumCols cols (lookupRow (missing_zip_to_nearest t cw) z) := by
        intro r _
        show sumCols cols (scaleRow _ _) = _
        rw [sumCols_scaleRow]
      rw [List.map_congr_left hterm, List.sum_map_mul_right]
      have hwsum : ((zipGroup (relevantRows cw
            (tblKeys (missing_zip_to_nearest t cw))) z).map
          (groupWeight
            (relevantRows cw (tblKeys (missing_zip_to_nearest t cw))) z)).sum
          = 1 := by
        rcases hex z (hzr0 ▸ hzin r0 hr0) with h | h
        · have hcl : isclose1 (ratioSum (zipGroup (relevantRows cw
              (tblKeys (missing_zip_to_nearest t cw))) z)) = true := by
            rw [h]
            exact isclose1_one
          have : ∀ r ∈ zipGroup (relevantRows cw
              (tblKeys (missing_zip_to_nearest t cw))) z,
              groupWeight
                (relevantRows cw (tblKeys (missing_zip_to_nearest t cw))) z r
                = r.oth_ratio := by
            intro r _
            unfold groupWeight
            rw [if_pos hcl]
          rw [List.map_congr_left this]
          exact h
        · have hcl : isclose1 (ratioSum (zipGroup (relevantRows cw
              (tblKeys (missing_zip_to_nearest t cw))) z)) = false := by
            rw [h]
            exact not_isclose1_zero
          have : ∀ r ∈ zipGroup (relevantRows cw
              (tblKeys (missing_zip_to_nearest t cw))) z,
              groupWeight
                (relevantRows cw (tblKeys (missing_zip_to_nearest t cw))) z r
                = 1 / ((zipGroup (relevantRows cw
                    (tblKeys (missing_zip_to_nearest t cw))) z).length : ℚ) := by
            intro r _
            unfold groupWeight
            rw [if_neg (by simp [hcl])]
          rw [List.map_congr_left this, sum_map_const_q]
          field_simp
      rw [hwsum, one_mul]
    rw [List.map_congr_left hone]
    have hperm : (((relevantRows cw
          (tblKeys (missing_zip_to_nearest t cw))).map CWRow.zip).dedup).Perm
        (tblKeys (missing_zip_to_nearest t cw)) := by
      have hndfx : (tblKeys (missing_zip_to_nearest t cw)).Nodup := by
        unfold missing_zip_to_nearest
        rw [tblKeys_groupSum]
        exact List.nodup_dedup _
      apply (List.perm_ext_iff_of_nodup (List.nodup_dedup _) hndfx).mpr
      intro z
      constructor
      · intro hz
        rcases List.mem_map.mp (List.mem_dedup.mp hz) with ⟨r, hr, hzr⟩
        exact hzr ▸ hzin r hr
      · intro hz
        have hzcw : z ∈ cw.map CWRow.zip :=
          missing_zip_keys_subset t cw hcw z hz
        rcases List.mem_map.mp hzcw with ⟨r, hr, hzr⟩
        apply List.mem_dedup.mpr
        apply List.mem_map.mpr
        refine ⟨r, ?_, hzr⟩
        unfold relevantRows
        apply List.mem_filter.mpr
        refine ⟨hr, ?_⟩
        simp [hzr, hz]
    have hpsum := (hperm.map
      (fun z => sumCols cols (lookupRow (missing_zip_to_nearest t cw) z))).sum_eq
    rw [hpsum, ← grandTotal_keys cols (missing_zip_to_nearest t cw) ?hnd]
    case hnd =>
      unfold missing_zip_to_nearest
      rw [tblKeys_groupSum]
      exact List.nodup_dedup _
    unfold missing_zip_to_nearest
    rw [grandTotal_groupSum, grandTotal_map_reindex]

/-- C1: for ZIP codes of the crosswalk whose address ratios sum to
approximately 1, _zip_cnts_to_fips distributes each ZIP count row over
all counties the ZIP maps to with weight OTH_RATIO of the (ZIP, county)
row, and each output county row is the sum of these weighted
contributions over every ZIP mapping to that county. -/
theorem C1_zip_to_county_weighted {ι : Type} (cw : Crosswalk) (t : Table ι)
    (hnd : (tblKeys t).Nodup)
    (hsub : ∀ k ∈ tblKeys t, k ∈ cw.map CWRow.zip)
    (hgood : ∀ z ∈ tblKeys t,
      isclose1 (ratioSum (zipGroup (relevantRows cw (tblKeys t)) z)) = true) :
    ∃ out, zip_cnts_to_fips cw t = .ok out
      ∧ (∀ z ∈ tblKeys t,
          processZip (relevantRows cw (tblKeys t)) t z
            = .ok ((zipGroup (relevantRows cw (tblKeys t)) z).map
                (fun r => (r.fips, scaleRow r.oth_ratio (lookupRow t z)))))
      ∧ ∀ f ∈ tblKeys out, ∀ c,
          lookupRow out f c
            = (((relevantRows cw (tblKeys t)).filter (fun r => r.fips == f)).map
                (fun r => r.oth_ratio * lookupRow t r.zip c)).sum := by
  obtain ⟨out, hok, _, hform⟩ := zip_cnts_to_fips_spec cw t hnd hsub
    (fun z hz => Or.inl (hgood z hz))
  refine ⟨out, hok, ?_, ?_⟩
  · intro z hz
    unfold processZip
    rw [if_pos (hgood z hz)]
  · intro f hf c
    rw [hform f hf c]
    apply congrArg
    apply List.map_congr_left
    intro r hr
    have hrz : r.zip ∈ tblKeys t :=
      mem_tblKeys_of_relevant cw t r (List.mem_of_mem_filter hr)
    show groupWeight (relevantRows cw (tblKeys t)) r.zip r * lookupRow t r.zip c = _
    unfold groupWeight
    rw [if_pos (hgood r.zip hrz)]

/-- Witness for C1 at the concrete crosswalk cwEx and table tEx. -/
theorem C1_zip_to_county_weighted_witness :
    ((tblKeys tEx).Nodup
      ∧ (∀ k ∈ tblKeys tEx, k ∈ cwEx.map CWRow.zip)
      ∧ (∀ z ∈ tblKeys tEx,
          isclose1 (ratioSum (zipGroup (relevantRows cwEx (tblKeys tEx)) z)) = true))
    ∧ (∃ out, zip_cnts_to_fips cwEx tEx = .ok out
        ∧ (∀ z ∈ tblKeys tEx,
            processZip (relevantRows cwEx (tblKeys tEx)) tEx z
              = .ok ((zipGroup (relevantRows cwEx (tblKeys tEx)) z).map
                  (fun r => (r.fips, scaleRow r.oth_ratio (lookupRow tEx z)))))
        ∧ ∀ f ∈ tblKeys out, ∀ c,
            lookupRow out f c
              = (((relevantRows cwEx (tblKeys tEx)).filter
                    (fun r => r.fips == f)).map
                  (fun r => r.oth_ratio * lookupRow tEx r.zip c)).sum) := by
  have hnd : (tblKeys tEx).Nodup := by decide
  have hsub : ∀ k ∈ tblKeys tEx, k ∈ cwEx.map CWRow.zip := by decide
  have hgood : ∀ z ∈ tblKeys tEx,
      isclose1 (ratioSum (zipGroup (relevantRows cwEx (tblKeys tEx)) z)) = true := by
    intro z hz
    have hz1 : z = 1 := by
      simpa [tEx, tblKeys] using hz
    subst hz1
    norm_num [cwEx, tEx, tblKeys, relevantRows, zipGroup, ratioSum, isclose1,
      List.filter]
  exact ⟨⟨hnd, hsub, hgood⟩, C1_zip_to_county_weighted cwEx tEx hnd hsub hgood⟩

/-- C2: for a ZIP whose crosswalk OTH ratios are entirely missing (sum
to 0), the loop body of _zip_cnts_to_fips falls back to an even split:
each of the n = len(fips_grp) counties of the group receives exactly 1/n
of the ZIP count row. -/
theorem C2_even_split_fallback {ι : Type} (relevant : Crosswalk)
    (t : Table ι) (z : Nat)
    (h0 : ratioSum (zipGroup relevant z) = 0) :
    processZip relevant t z
      = .ok ((zipGroup relevant z).map
          (fun r => (r.fips,
            scaleRow (1 / ((zipGroup relevant z).length : ℚ))
              (lookupRow t z)))) := by
  unfold processZip
  have hcl : isclose1 (ratioSum (zipGroup relevant z)) = false := by
    rw [h0]
    exact not_isclose1_zero
  rw [if_neg (by simp [hcl]), if_pos h0]

/-- Witness for C2 at the concrete crosswalk cwEx0 with zero ratios. -/
theorem C2_even_split_fallback_witness :
    ratioSum (zipGroup cwEx0 1) = 0
      ∧ processZip cwEx0 tEx 1
          = .ok ((zipGroup cwEx0 1).map
              (fun r => (r.fips,
                scaleRow (1 / ((zipGroup cwEx0 1).length : ℚ))
                  (lookupRow tEx 1)))) := by
  have h0 : ratioSum (zipGroup cwEx0 1) = 0 := by
    norm_num [cwEx0, zipGroup, ratioSum, List.filter]
  exact ⟨h0, C2_even_split_fallback cwEx0 tEx 1 h0⟩

/-- Helper for C8: the loop body either raises the ratio ValueError or
succeeds; no other exception leaves it. -/
theorem processZip_cases {ι : Type} (relevant : Crosswalk) (t : Table ι)
    (x : Nat) :
    processZip relevant t x = .error "Ratios must total 1 to keep all orgs."
      ∨ ∃ y, processZip relevant t x = .ok y := by
  by_cases hc : isclose1 (ratioSum (zipGroup relevant x)) = true
  · right
    exact ⟨(zipGroup relevant x).map
        (fun r => (r.fips, scaleRow r.oth_ratio (lookupRow t x))),
      by unfold processZip; rw [if_pos hc]⟩
  · by_cases h0 : ratioSum (zipGroup relevant x) = 0
    · right
      exact ⟨(zipGroup relevant x).map
          (fun r => (r.fips,
            scaleRow (1 / ((zipGroup relevant x).length : ℚ)) (lookupRow t x))),
        by unfold processZip; rw [if_neg hc, if_pos h0]⟩
    · left
      unfold processZip
      rw [if_neg hc, if_neg h0]

/-- C8: a relevant ZIP whose OTH ratios sum neither approximately to 1
nor exactly to 0 makes the whole _zip_cnts_to_fips call raise ValueError
with the message of line 258; no result table is produced, so counts are
neither dropped nor inflated silently. -/
theorem C8_bad_ratio_sum_raises {ι : Type} (cw : Crosswalk) (t : Table ι)
    (z : Nat)
    (hz : z ∈ ((relevantRows cw
        (tblKeys (missing_zip_to_nearest t cw))).map CWRow.zip).dedup)
    (h1 : isclose1 (ratioSum (zipGroup
        (relevantRows cw (tblKeys (missing_zip_to_nearest t cw))) z)) = false)
    (h2 : ratioSum (zipGroup
        (relevantRows cw (tblKeys (missing_zip_to_nearest t cw))) z) ≠ 0) :
    zip_cnts_to_fips cw t
      = .error "Ratios must total 1 to keep all orgs." := by
  unfold zip_cnts_to_fips
  have herr := mapExcept_error
    (processZip (relevantRows cw (tblKeys (missing_zip_to_nearest t cw)))
      (missing_zip_to_nearest t cw))
    "Ratios must total 1 to keep all orgs."
    (((relevantRows cw (tblKeys (missing_zip_to_nearest t cw))).map
      CWRow.zip).dedup)
    (fun x _ => processZip_cases _ _ x)
    ⟨z, hz, processZip_error _ _ z (by simp [h1]) h2⟩
  rw [herr]
  rfl

/-- Witness for C8 at the concrete crosswalk cwExBad whose ratios sum to
3/4. -/
theorem C8_bad_ratio_sum_raises_witness :
    (1 ∈ ((relevantRows cwExBad
        (tblKeys (missing_zip_to_nearest tEx cwExBad))).map CWRow.zip).dedup
      ∧ isclose1 (ratioSum (zipGroup (relevantRows cwExBad
          (tblKeys (missing_zip_to_nearest tEx cwExBad))) 1)) = false
      ∧ ratioSum (zipGroup (relevantRows cwExBad
          (tblKeys (missing_zip_to_nearest tEx cwExBad))) 1) ≠ 0)
    ∧ zip_cnts_to_fips cwExBad tEx
        = .error "Ratios must total 1 to keep all orgs." := by
  have hz : 1 ∈ ((relevantRows cwExBad
      (tblKeys (missing_zip_to_nearest tEx cwExBad))).map CWRow.zip).dedup := by
    decide
  have hsum : ratioSum (zipGroup (relevantRows cwExBad
      (tblKeys (missing_zip_to_nearest tEx cwExBad))) 1) = 3/4 := by
    norm_num [cwExBad, tEx, tblKeys, missing_zip_to_nearest, groupSum,
      replaceZip, relevantRows, zipGroup, ratioSum, List.filter]
  have h1 : isclose1 (ratioSum (zipGroup (relevantRows cwExBad
      (tblKeys (missing_zip_to_nearest tEx cwExBad))) 1)) = false := by
    rw [hsum]
    norm_num [isclose1, abs_le]
  have h2 : ratioSum (zipGroup (relevantRows cwExBad
      (tblKeys (missing_zip_to_nearest tEx cwExBad))) 1) ≠ 0 := by
    rw [hsum]
    norm_num
  exact ⟨⟨hz, h1, h2⟩, C8_bad_ratio_sum_raises cwExBad tEx 1 hz h1 h2⟩

/-- C3: _missing_zip_to_nearest replaces every count-table ZIP that is
absent from the crosswalk by a crosswalk ZIP minimizing the absolute
difference of the integer values (ZIP codes being canonical 5-digit
strings, the zero-padded string of that integer), merges count rows
whose index keys now coincide by summation, and returns a table whose
every index ZIP is present in the crosswalk. -/
theorem C3_missing_zip_nearest {ι : Type} (t : Table ι) (cw : Crosswalk)
    (hcw : cw.map CWRow.zip ≠ []) :
    (∀ z ∈ tblKeys t, z ∉ cw.map CWRow.zip →
      replaceZip (cw.map CWRow.zip) z ∈ cw.map CWRow.zip
        ∧ ∀ y ∈ cw.map CWRow.zip,
            zdist (replaceZip (cw.map CWRow.zip) z) z ≤ zdist y z)
    ∧ (∀ k ∈ tblKeys (missing_zip_to_nearest t cw), ∀ c,
        lookupRow (missing_zip_to_nearest t cw) k c
          = ((t.filter (fun r =>
              replaceZip (cw.map CWRow.zip) r.1 == k)).map
              (fun r => r.2 c)).sum)
    ∧ (∀ k ∈ tblKeys (missing_zip_to_nearest t cw), k ∈ cw.map CWRow.zip) := by
  refine ⟨?_, ?_, missing_zip_keys_subset t cw hcw⟩
  · intro z _ hzm
    exact replaceZip_nearest (cw.map CWRow.zip) z hcw hzm
  · intro k hk c
    unfold missing_zip_to_nearest at hk ⊢
    rw [mem_tblKeys_groupSum] at hk
    rw [lookupRow_groupSum _ k hk, sumRows_apply, List.map_map,
      List.filter_map, List.map_map]
    rfl

/-- Witness for C3 at the concrete table tExM, whose ZIP 5 is missing
from the crosswalk cwEx. -/
theorem C3_missing_zip_nearest_witness :
    (cwEx.map CWRow.zip ≠ [])
    ∧ ((∀ z ∈ tblKeys tExM, z ∉ cwEx.map CWRow.zip →
        replaceZip (cwEx.map CWRow.zip) z ∈ cwEx.map CWRow.zip
          ∧ ∀ y ∈ cwEx.map CWRow.zip,
              zdist (replaceZip (cwEx.map CWRow.zip) z) z ≤ zdist y z)
      ∧ (∀ k ∈ tblKeys (missing_zip_to_nearest tExM cwEx), ∀ c,
          lookupRow (missing_zip_to_nearest tExM cwEx) k c
            = ((tExM.filter (fun r =>
                replaceZip (cwEx.map CWRow.zip) r.1 == k)).map
                (fun r => r.2 c)).sum)
      ∧ (∀ k ∈ tblKeys (missing_zip_to_nearest tExM cwEx),
          k ∈ cwEx.map CWRow.zip)) := by
  have hcw : cwEx.map CWRow.zip ≠ [] := by decide
  exact ⟨hcw, C3_missing_zip_nearest tExM cwEx hcw⟩

/-- Splitting a column sum at one column of the list. -/
theorem sumCols_erase_split {ι : Type} [DecidableEq ι] (l : List ι) (a : ι)
    (ha : a ∈ l) (v : Row ι) :
    sumCols l v = v a + sumCols (l.erase a) v := by
  have hperm : l.Perm (a :: l.erase a) := List.perm_cons_erase ha
  unfold sumCols
  rw [(hperm.map v).sum_eq, List.map_cons, List.sum_cons]

/-- weighted_dist preserves the total over the denomination columns: the
sum of the redistributed row over the columns other than the None column
equals the sum of the original row over all denomination columns. -/
theorem weighted_dist_conserves {ι : Type} [DecidableEq ι]
    (denomCols : List ι) (noneCol : ι)
    (hmem : noneCol ∈ denomCols) (h2 : 2 ≤ denomCols.length) (row : Row ι) :
    sumCols (denomCols.erase noneCol) (weighted_dist denomCols noneCol row)
      = sumCols denomCols row := by
  have hsplit := sumCols_erase_split denomCols noneCol hmem row
  have hsub : ∀ c ∈ denomCols.erase noneCol, c ∈ denomCols :=
    fun c hc => List.mem_of_mem_erase hc
  have hlen : (denomCols.erase noneCol).length = denomCols.length - 1 :=
    List.length_erase_of_mem hmem
  have hlenq : ((denomCols.length - 1 : ℕ) : ℚ) ≠ 0 := by
    have h1 : 1 ≤ denomCols.length - 1 := by omega
    have : denomCols.length - 1 ≠ 0 := by omega
    exact_mod_cast this
  by_cases h0 : sumCols denomCols row - row noneCol = 0
  · have hcong : ∀ c ∈ denomCols.erase noneCol,
        weighted_dist denomCols noneCol row c
          = row c + row noneCol / ((denomCols.length - 1 : ℕ) : ℚ) := by
      intro c hc
      unfold weighted_dist
      rw [if_pos (hsub c hc), if_pos h0]
    have herase : ((denomCols.erase noneCol).map row).sum
        = sumCols denomCols row - row noneCol := by
      unfold sumCols at hsplit ⊢
      linarith
    show ((denomCols.erase noneCol).map
        (weighted_dist denomCols noneCol row)).sum = _
    rw [List.map_congr_left hcong, List.sum_map_add, herase, h0,
      sum_map_const_q, hlen]
    have h2' : (2:ℚ) ≤ (denomCols.length : ℚ) := by exact_mod_cast h2
    have hne : ((denomCols.length : ℚ) - 1) ≠ 0 := by
      intro h
      linarith
    have hcancel : ((denomCols.length - 1 : ℕ) : ℚ)
        * (row noneCol / ((denomCols.length - 1 : ℕ) : ℚ)) = row noneCol := by
      field_simp
    rw [hcancel]
    linarith
  · have hcong : ∀ c ∈ denomCols.erase noneCol,
        weighted_dist denomCols noneCol row c
          = row c * (1 + row noneCol / (sumCols denomCols row - row noneCol)) := by
      intro c hc
      unfold weighted_dist
      rw [if_pos (hsub c hc), if_neg h0]
      field_simp
      ring
    have herase : ((denomCols.erase noneCol).map row).sum
        = sumCols denomCols row - row noneCol := by
      unfold sumCols at hsplit ⊢
      linarith
    show ((denomCols.erase noneCol).map
        (weighted_dist denomCols noneCol row)).sum = _
    rw [List.map_congr_left hcong, List.sum_map_mul_right, herase]
    field_simp

/-- C4 (amended): on a county table with a unique None denomination
column, _impute_denoms_county_cnts redistributes the None count of every
row with a positive None count over the denomination columns (each count
c with total t = sum - none, t nonzero, becomes c + (c/t)*none; when
t = 0 every other column receives none/(len-1)), drops the None column,
and removes exactly the rows whose remaining denomination counts sum to
0; every row of the imputation keeps its total denomination count. -/
theorem C4_impute_none_denoms (cols : List String) (tbl : Table String)
    (noneCol : String)
    (hfil : (cols.filter (fun c => strStarts "Denom_" c)).filter
        (fun c => strContains c "None") = [noneCol])
    (h2 : 2 ≤ (cols.filter (fun c => strStarts "Denom_" c)).length) :
    impute_denoms_county_cnts id cols tbl
      = .ok (cols.erase noneCol,
          (tbl.map (fun r =>
            if r.2 noneCol > 0 then
              (r.1, weighted_dist (cols.filter (fun c => strStarts "Denom_" c))
                noneCol r.2)
            else r)).filter (fun r =>
              decide (sumCols ((cols.filter
                (fun c => strStarts "Denom_" c)).erase noneCol) r.2 ≠ 0)))
      ∧ (∀ (row : Row String),
          ∀ c ∈ cols.filter (fun c => strStarts "Denom_" c),
          (sumCols (cols.filter (fun c => strStarts "Denom_" c)) row
              - row noneCol ≠ 0 →
            weighted_dist (cols.filter (fun c => strStarts "Denom_" c))
                noneCol row c
              = row c + row c / (sumCols (cols.filter
                  (fun c => strStarts "Denom_" c)) row - row noneCol)
                  * row noneCol)
          ∧ (sumCols (cols.filter (fun c => strStarts "Denom_" c)) row
              - row noneCol = 0 →
            weighted_dist (cols.filter (fun c => strStarts "Denom_" c))
                noneCol row c
              = row c + row noneCol
                  / (((cols.filter (fun c => strStarts "Denom_" c)).length
                      - 1 : ℕ) : ℚ)))
      ∧ (∀ (row : Row String),
          sumCols ((cols.filter (fun c => strStarts "Denom_" c)).erase noneCol)
              (weighted_dist (cols.filter (fun c => strStarts "Denom_" c))
                noneCol row)
            = sumCols (cols.filter (fun c => strStarts "Denom_" c)) row)
      ∧ (∀ (row : Row String), row noneCol = 0 →
          sumCols ((cols.filter (fun c => strStarts "Denom_" c)).erase noneCol)
              row
            = sumCols (cols.filter (fun c => strStarts "Denom_" c)) row) := by
  have hmem : noneCol ∈ cols.filter (fun c => strStarts "Denom_" c) := by
    have h1 : noneCol ∈ ((cols.filter (fun c => strStarts "Denom_" c)).filter
        (fun c => strContains c "None")) := by
      rw [hfil]
      exact List.mem_singleton_self noneCol
    exact List.mem_of_mem_filter h1
  refine ⟨?_, ?_, ?_, ?_⟩
  · unfold impute_denoms_county_cnts
    have hne0 : ¬ ((cols.filter (fun c => strStarts "Denom_" c)).length = 0) :=
      by omega
    simp only [id_eq]
    rw [if_neg hne0, hfil]
  · intro row c hc
    constructor
    · intro ht
      unfold weighted_dist
      rw [if_pos hc, if_neg ht]
    · intro ht
      unfold weighted_dist
      rw [if_pos hc, if_pos ht]
  · intro row
    exact weighted_dist_conserves _ noneCol hmem h2 row
  · intro row h0
    have := sumCols_erase_split (cols.filter (fun c => strStarts "Denom_" c))
      noneCol hmem row
    rw [h0] at this
    linarith

/-- Witness for C4 on a three-column denomination table. -/
theorem C4_impute_none_denoms_witness :
    (((["Denom_None", "Denom_Orth", "Denom_Ref"].filter
          (fun c => strStarts "Denom_" c)).filter
        (fun c => strContains c "None") = ["Denom_None"])
      ∧ 2 ≤ (["Denom_None", "Denom_Orth", "Denom_Ref"].filter
          (fun c => strStarts "Denom_" c)).length)
    ∧ (impute_denoms_county_cnts id ["Denom_None", "Denom_Orth", "Denom_Ref"]
          [(7, fun c => if c = "Denom_None" then (2:ℚ) else 1)]
        = .ok ((["Denom_None", "Denom_Orth", "Denom_Ref"].erase "Denom_None"),
            (([(7, fun c => if c = "Denom_None" then (2:ℚ) else 1)].map
              (fun r =>
                if r.2 "Denom_None" > 0 then
                  (r.1, weighted_dist
                    (["Denom_None", "Denom_Orth", "Denom_Ref"].filter
                      (fun c => strStarts "Denom_" c))
                    "Denom_None" r.2)
                else r)).filter (fun r =>
                  decide (sumCols ((["Denom_None", "Denom_Orth",
                      "Denom_Ref"].filter
                    (fun c => strStarts "Denom_" c)).erase "Denom_None")
                    r.2 ≠ 0))))
        ∧ (∀ (row : Row String),
            ∀ c ∈ ["Denom_None", "Denom_Orth", "Denom_Ref"].filter
              (fun c => strStarts "Denom_" c),
            (sumCols (["Denom_None", "Denom_Orth", "Denom_Ref"].filter
                (fun c => strStarts "Denom_" c)) row - row "Denom_None" ≠ 0 →
              weighted_dist (["Denom_None", "Denom_Orth", "Denom_Ref"].filter
                  (fun c => strStarts "Denom_" c)) "Denom_None" row c
                = row c + row c / (sumCols (["Denom_None", "Denom_Orth",
                    "Denom_Ref"].filter
                    (fun c => strStarts "Denom_" c)) row - row "Denom_None")
                    * row "Denom_None")
            ∧ (sumCols (["Denom_None", "Denom_Orth", "Denom_Ref"].filter
                (fun c => strStarts "Denom_" c)) row - row "Denom_None" = 0 →
              weighted_dist (["Denom_None", "Denom_Orth", "Denom_Ref"].filter
                  (fun c => strStarts "Denom_" c)) "Denom_None" row c
                = row c + row "Denom_None"
                    / (((["Denom_None", "Denom_Orth", "Denom_Ref"].filter
                        (fun c => strStarts "Denom_" c)).length - 1 : ℕ) : ℚ)))
        ∧ (∀ (row : Row String),
            sumCols ((["Denom_None", "Denom_Orth", "Denom_Ref"].filter
                (fun c => strStarts "Denom_" c)).erase "Denom_None")
                (weighted_dist (["Denom_None", "Denom_Orth",
                    "Denom_Ref"].filter
                  (fun c => strStarts "Denom_" c)) "Denom_None" row)
              = sumCols (["Denom_None", "Denom_Orth", "Denom_Ref"].filter
                  (fun c => strStarts "Denom_" c)) row)
        ∧ (∀ (row : Row String), row "Denom_None" = 0 →
            sumCols ((["Denom_None", "Denom_Orth", "Denom_Ref"].filter
                (fun c => strStarts "Denom_" c)).erase "Denom_None") row
              = sumCols (["Denom_None", "Denom_Orth", "Denom_Ref"].filter
                  (fun c => strStarts "Denom_" c)) row)) := by
  have hfil : ((["Denom_None", "Denom_Orth", "Denom_Ref"].filter
        (fun c => strStarts "Denom_" c)).filter
      (fun c => strContains c "None") = ["Denom_None"]) := by decide
  have h2 : 2 ≤ (["Denom_None", "Denom_Orth", "Denom_Ref"].filter
      (fun c => strStarts "Denom_" c)).length := by decide
  exact ⟨⟨hfil, h2⟩,
    C4_impute_none_denoms ["Denom_None", "Denom_Orth", "Denom_Ref"]
      [(7, fun c => if c = "Denom_None" then (2:ℚ) else 1)]
      "Denom_None" hfil h2⟩

/-- C4 counterexample: contrary to the claim that counties whose only
denomination data was None are removed, a county whose None count is 5
and whose only other denomination count is 0 is KEPT by
_impute_denoms_county_cnts: the total=0 branch of weighted_dist spreads
the 5 into Denom_Orth and the county survives the final drop. -/
theorem C4_only_none_county_kept :
    (impute_denoms_county_cnts id ["Denom_None", "Denom_Orth"]
        [(0, fun c => if c = "Denom_None" then (5:ℚ) else 0)]).map
      (fun p => (p.1, p.2.map Prod.fst, p.2.map (fun r => r.2 "Denom_Orth")))
      = .ok (["Denom_Orth"], [0], [5]) := by
  have hdc : (["Denom_None", "Denom_Orth"].filter
      (fun c => strStarts "Denom_" c)) = ["Denom_None", "Denom_Orth"] := by
    decide
  have hnone : (["Denom_None", "Denom_Orth"].filter
      (fun c => strContains c "None")) = ["Denom_None"] := by decide
  have hdc2 : (["Denom_Orth"].filter (fun c => strStarts "Denom_" c))
      = ["Denom_Orth"] := by decide
  have hne : ¬ ("Denom_Orth" = "Denom_None") := by decide
  have hwd : weighted_dist ["Denom_None", "Denom_Orth"] "Denom_None"
      (fun c => if c = "Denom_None" then (5:ℚ) else 0) "Denom_Orth" = 5 := by
    unfold weighted_dist sumCols
    norm_num [hne]
  have hsum : sumCols ["Denom_Orth"]
      (weighted_dist ["Denom_None", "Denom_Orth"] "Denom_None"
        (fun c => if c = "Denom_None" then (5:ℚ) else 0)) = 5 := by
    unfold sumCols
    simp [hwd]
  unfold impute_denoms_county_cnts
  norm_num [id_eq, hdc, hnone, hdc2, hwd, hsum, List.erase]
  simp [Except.map, hwd]

/-- A value that is not a key of a replacement table is unchanged. -/
theorem replaceVal_not_mem (table : List (String × String)) (v : String)
    (hv : v ∉ table.map Prod.fst) : replaceVal table v = v := by
  unfold replaceVal
  rw [List.find?_eq_none.mpr]
  intro p hp
  simp only [beq_iff_eq]
  intro he
  exact hv (List.mem_map.mpr ⟨p, hp, he⟩)

/-- C7: read_orgs renames columns by the static table COL_NAMES (Address
to Addr, Type of Organization to Type, Denominations to Denom, any other
label unchanged) and replaces the Type and Denom category values by the
short forms of TYPE_NAMES and DENOM_NAMES (such as Orthodox to Orth and
Day school to DaySch), leaving values outside the tables unchanged. -/
theorem C7_read_orgs_static_renames :
    (renameCol "Address" = "Addr"
      ∧ renameCol "Type of Organization" = "Type"
      ∧ renameCol "Denominations" = "Denom")
    ∧ (∀ c : String, c ∉ COL_NAMES.map Prod.fst → renameCol c = c)
    ∧ (replaceVal TYPE_NAMES "Day school" = "DaySch"
      ∧ replaceVal DENOM_NAMES "Orthodox" = "Orth")
    ∧ (∀ p ∈ TYPE_NAMES, replaceVal TYPE_NAMES p.1 = p.2)
    ∧ (∀ p ∈ DENOM_NAMES, replaceVal DENOM_NAMES p.1 = p.2)
    ∧ (∀ v : String, v ∉ TYPE_NAMES.map Prod.fst →
        replaceVal TYPE_NAMES v = v)
    ∧ (∀ v : String, v ∉ DENOM_NAMES.map Prod.fst →
        replaceVal DENOM_NAMES v = v)
    ∧ (∀ (cols : List String) (rows : List RawOrg),
        read_orgs cols rows
          = (cols.map renameCol,
             rows.map (fun o =>
               { addr := o.address
                 otype := o.orgType.map (replaceVal TYPE_NAMES)
                 denom := o.denominations.map (replaceVal DENOM_NAMES) }))) := by
  refine ⟨⟨by decide, by decide, by decide⟩, ?_, ⟨by decide, by decide⟩,
    by decide, by decide, ?_, ?_, fun cols rows => rfl⟩
  · intro c hc
    unfold renameCol
    rw [List.find?_eq_none.mpr]
    intro p hp
    simp only [beq_iff_eq]
    intro he
    exact hc (List.mem_map.mpr ⟨p, hp, he⟩)
  · intro v hv
    exact replaceVal_not_mem TYPE_NAMES v hv
  · intro v hv
    exact replaceVal_not_mem DENOM_NAMES v hv

/-- Witness for C7: an unknown column label and unknown category values
are left unchanged, per the universally quantified parts of C7. -/
theorem C7_read_orgs_static_renames_witness :
    ("Zip" ∉ COL_NAMES.map Prod.fst
      ∧ "Zionist" ∉ TYPE_NAMES.map Prod.fst
      ∧ "Zionist" ∉ DENOM_NAMES.map Prod.fst)
    ∧ renameCol "Zip" = "Zip"
    ∧ replaceVal TYPE_NAMES "Zionist" = "Zionist"
    ∧ replaceVal DENOM_NAMES "Zionist" = "Zionist" :=
  ⟨⟨by decide, by decide, by decide⟩,
    C7_read_orgs_static_renames.2.1 "Zip" (by decide),
    C7_read_orgs_static_renames.2.2.2.2.2.1 "Zionist" (by decide),
    C7_read_orgs_static_renames.2.2.2.2.2.2.1 "Zionist" (by decide)⟩

/-- C9: get_county_cnts raises ValueError whenever both include and
exclude are passed, and _filter_incl_excl raises ValueError whenever a
value to include or to exclude is not among the Type or Denom values
present in the data; in each case only the error leaves the call, so no
filtered result is produced. -/
theorem C9_include_exclude_errors (cw : Crosswalk) (orgs : List Org)
    (categorical : String) :
    (∀ incl excl : List String,
      get_county_cnts cw orgs categorical (some incl) (some excl)
        = .error "Cannot pass both include and exclude kwargs.")
    ∧ (∀ ex : List String,
        (∃ x ∈ ex, ¬ (((orgs.map Org.otype).dedup
            ++ (orgs.map Org.denom).dedup).contains (some x) = true)) →
        filter_incl_excl orgs none (some ex)
          = .error "Values to be excluded must be in data.")
    ∧ (∀ inc : List String,
        (∃ x ∈ inc, ¬ (((orgs.map Org.otype).dedup
            ++ (orgs.map Org.denom).dedup).contains (some x) = true)) →
        filter_incl_excl orgs (some inc) none
          = .error "Values to be included must be in data.") := by
  refine ⟨?_, ?_, ?_⟩
  · intro incl excl
    unfold get_county_cnts
    rw [if_pos ⟨rfl, rfl⟩]
  · intro ex hex
    have hany : ex.any (fun x => !(((orgs.map Org.otype).dedup
        ++ (orgs.map Org.denom).dedup).contains (some x))) = true := by
      rw [List.any_eq_true]
      rcases hex with ⟨x, hx, hnx⟩
      exact ⟨x, hx, by simpa using hnx⟩
    simp only [filter_incl_excl]
    rw [if_pos hany]
  · intro inc hinc
    have hany : inc.any (fun x => !(((orgs.map Org.otype).dedup
        ++ (orgs.map Org.denom).dedup).contains (some x))) = true := by
      rw [List.any_eq_true]
      rcases hinc with ⟨x, hx, hnx⟩
      exact ⟨x, hx, by simpa using hnx⟩
    simp only [filter_incl_excl]
    rw [if_pos hany]

/-- Witness for C9 at a concrete organization list: both kwargs passed,
an unknown exclude value, and an unknown include value. -/
theorem C9_include_exclude_errors_witness :
    ((∃ x ∈ ["Bogus"], ¬ (((orgsEx.map Org.otype).dedup
        ++ (orgsEx.map Org.denom).dedup).contains (some x) = true)))
    ∧ get_county_cnts cwEx orgsEx "both" (some ["DaySch"]) (some ["Orth"])
        = .error "Cannot pass both include and exclude kwargs."
    ∧ filter_incl_excl orgsEx none (some ["Bogus"])
        = .error "Values to be excluded must be in data."
    ∧ filter_incl_excl orgsEx (some ["Bogus"]) none
        = .error "Values to be included must be in data." :=
  ⟨by decide,
    (C9_include_exclude_errors cwEx orgsEx "both").1 ["DaySch"] ["Orth"],
    (C9_include_exclude_errors cwEx orgsEx "both").2.1 ["Bogus"] (by decide),
    (C9_include_exclude_errors cwEx orgsEx "both").2.2 ["Bogus"] (by decide)⟩

/-- C10: include and exclude semantics of _filter_incl_excl.  With
include values of both categoricals, an organization is kept only when
its Type and its Denom are both in include; with include values of a
single categorical, it is kept when either matches; with exclude, it is
dropped when either matches. -/
theorem C10_include_exclude_semantics (orgs : List Org) :
    (∀ inc : List String,
      inc.any (fun x => !(((orgs.map Org.otype).dedup
          ++ (orgs.map Org.denom).dedup).contains (some x))) = false →
      inc.any (fun x => (orgs.map Org.otype).dedup.contains (some x)) = true →
      inc.any (fun x => (orgs.map Org.denom).dedup.contains (some x)) = true →
      filter_incl_excl orgs (some inc) none
        = .ok (orgs.filter (fun o =>
            (inc.map some).contains o.otype
              && (inc.map some).contains o.denom)))
    ∧ (∀ inc : List String,
      inc.any (fun x => !(((orgs.map Org.otype).dedup
          ++ (orgs.map Org.denom).dedup).contains (some x))) = false →
      (inc.any (fun x => (orgs.map Org.otype).dedup.contains (some x))
          && inc.any (fun x => (orgs.map Org.denom).dedup.contains (some x)))
        = false →
      (inc.any (fun x => (orgs.map Org.otype).dedup.contains (some x))
          || inc.any (fun x => (orgs.map Org.denom).dedup.contains (some x)))
        = true →
      filter_incl_excl orgs (some inc) none
        = .ok (orgs.filter (fun o =>
            (inc.map some).contains o.otype
              || (inc.map some).contains o.denom)))
    ∧ (∀ ex : List String,
      ex.any (fun x => !(((orgs.map Org.otype).dedup
          ++ (orgs.map Org.denom).dedup).contains (some x))) = false →
      filter_incl_excl orgs none (some ex)
        = .ok (orgs.filter (fun o =>
            !((ex.map some).contains o.otype
              || (ex.map some).contains o.denom)))) := by
  refine ⟨?_, ?_, ?_⟩
  · intro inc h0 hT hD
    simp only [filter_incl_excl]
    rw [if_neg (show ¬ _ by rw [h0]; exact Bool.false_ne_true),
      if_pos (show (inc.any (fun x =>
          (orgs.map Org.otype).dedup.contains (some x))
        && inc.any (fun x =>
          (orgs.map Org.denom).dedup.contains (some x))) = true by
        rw [hT, hD]; rfl)]
  · intro inc h0 hboth heither
    simp only [filter_incl_excl]
    rw [if_neg (show ¬ _ by rw [h0]; exact Bool.false_ne_true),
      if_neg (show ¬ _ by rw [hboth]; exact Bool.false_ne_true),
      if_pos heither]
  · intro ex h0
    simp only [filter_incl_excl]
    rw [if_neg (show ¬ _ by rw [h0]; exact Bool.false_ne_true)]

/-- Witness for C10: the three filtering cases at the concrete
organization list orgsEx. -/
theorem C10_include_exclude_semantics_witness :
    ((["DaySch", "Orth"].any (fun x => !(((orgsEx.map Org.otype).dedup
        ++ (orgsEx.map Org.denom).dedup).contains (some x))) = false)
      ∧ (["DaySch"].any (fun x => !(((orgsEx.map Org.otype).dedup
          ++ (orgsEx.map Org.denom).dedup).contains (some x))) = false)
      ∧ (["Orth"].any (fun x => !(((orgsEx.map Org.otype).dedup
          ++ (orgsEx.map Org.denom).dedup).contains (some x))) = false))
    ∧ filter_incl_excl orgsEx (some ["DaySch", "Orth"]) none
        = .ok (orgsEx.filter (fun o =>
            (["DaySch", "Orth"].map some).contains o.otype
              && (["DaySch", "Orth"].map some).contains o.denom))
    ∧ filter_incl_excl orgsEx (some ["DaySch"]) none
        = .ok (orgsEx.filter (fun o =>
            (["DaySch"].map some).contains o.otype
              || (["DaySch"].map some).contains o.denom))
    ∧ filter_incl_excl orgsEx none (some ["Orth"])
        = .ok (orgsEx.filter (fun o =>
            !((["Orth"].map some).contains o.otype
              || (["Orth"].map some).contains o.denom))) :=
  ⟨⟨by decide, by decide, by decide⟩,
    (C10_include_exclude_semantics orgsEx).1 ["DaySch", "Orth"]
      (by decide) (by decide) (by decide),
    (C10_include_exclude_semantics orgsEx).2.1 ["DaySch"]
      (by decide) (by decide) (by decide),
    (C10_include_exclude_semantics orgsEx).2.2 ["Orth"] (by decide)⟩

theorem sumCols_append {ι : Type} (l1 l2 : List ι) (v : Row ι) :
    sumCols (l1 ++ l2) v = sumCols l1 v + sumCols l2 v := by
  unfold sumCols
  rw [List.map_append, List.sum_append]

theorem mathIsclose_self (a : ℚ) : mathIsclose a a = true := by
  unfold mathIsclose
  rw [decide_eq_true_eq]
  simp only [sub_self, abs_zero]
  positivity

theorem validate_total_error (categorical : String) (t : ℚ) (n : ℕ)
    (h : mathIsclose (t / (if categorical = "both" then 2 else 1)) (n:ℚ)
      = false) :
    validate_total categorical t n
      = .error "total county counts does not match JData orgs" := by
  unfold validate_total
  rw [if_neg (show ¬ _ by rw [h]; exact Bool.false_ne_true)]

theorem Except_map_ok {ε α β : Type} (f : α → β) (x : Except ε α) (b : β)
    (h : x.map f = .ok b) : ∃ a, x = .ok a ∧ b = f a := by
  cases x with
  | error e => cases h
  | ok a =>
      refine ⟨a, rfl, ?_⟩
      injection h with h
      exact h.symm

theorem mapExcept_ok_inv {α β ε : Type} (f : α → Except ε β) :
    ∀ (l : List α) (ys : List β), mapExcept f l = .ok ys →
    ∀ y ∈ ys, ∃ a ∈ l, f a = .ok y := by
  intro l
  induction l with
  | nil =>
      intro ys h y hy
      cases h
      cases hy
  | cons a as ih =>
      intro ys h y hy
      rcases hfa : f a with e | b
      · rw [mapExcept, hfa] at h
        cases h
      · rw [mapExcept, hfa] at h
        rcases hmas : mapExcept f as with e | bs
        · rw [hmas] at h
          cases h
        · rw [hmas] at h
          injection h with h
          rw [← h] at hy
          rcases List.mem_cons.mp hy with h1 | h1
          · exact ⟨a, List.mem_cons_self a as, by rw [hfa, h1]⟩
          · rcases ih bs hmas y h1 with ⟨x, hx, hfx⟩
            exact ⟨x, List.mem_cons_of_mem a hx, hfx⟩

theorem processZip_ok_keys {ι : Type} (relevant : Crosswalk) (t : Table ι)
    (z : Nat) (y : Table ι) (h : processZip relevant t z = .ok y) :
    ∀ q ∈ y, ∃ r ∈ zipGroup relevant z, q.1 = r.fips := by
  unfold processZip at h
  by_cases hc : isclose1 (ratioSum (zipGroup relevant z)) = true
  · rw [if_pos hc] at h
    injection h with h
    rw [← h]
    intro q hq
    rcases List.mem_map.mp hq with ⟨r, hr, hrq⟩
    exact ⟨r, hr, by rw [← hrq]⟩
  · rw [if_neg hc] at h
    by_cases h0 : ratioSum (zipGroup relevant z) = 0
    · rw [if_pos h0] at h
      injection h with h
      rw [← h]
      intro q hq
      rcases List.mem_map.mp hq with ⟨r, hr, hrq⟩
      exact ⟨r, hr, by rw [← hrq]⟩
    · rw [if_neg h0] at h
      cases h

theorem zip_cnts_to_fips_ok_keys {ι : Type} (cw : Crosswalk) (t : Table ι)
    (out : Table ι) (h : zip_cnts_to_fips cw t = .ok out) :
    (tblKeys out).Nodup ∧ ∀ f ∈ tblKeys out, f ∈ cw.map CWRow.fips := by
  unfold zip_cnts_to_fips at h
  rcases Except_map_ok _ _ _ h with ⟨contribs, hmap, hout⟩
  constructor
  · rw [hout, tblKeys_groupSum]
    exact List.nodup_dedup _
  · intro f hf
    rw [hout, mem_tblKeys_groupSum] at hf
    rcases List.mem_map.mp hf with ⟨q, hq, hqf⟩
    rcases List.mem_flatten.mp hq with ⟨L, hL, hqL⟩
    rcases mapExcept_ok_inv _ _ _ hmap L hL with ⟨z, _, hfz⟩
    rcases processZip_ok_keys _ _ _ _ hfz q hqL with ⟨r, hr, hqr⟩
    rw [← hqf, hqr]
    exact List.mem_map_of_mem CWRow.fips
      (List.mem_of_mem_filter (List.mem_of_mem_filter hr))

theorem typeCols_shape (orgs : List Org) :
    ∀ c ∈ typeCols orgs, ∃ w : Option String, c = Col.type w := by
  intro c hc
  rcases List.mem_append.mp hc with h | h
  · rcases List.mem_map.mp h with ⟨v, _, hv⟩
    exact ⟨some v, hv.symm⟩
  · rcases List.mem_singleton.mp h with rfl
    exact ⟨none, rfl⟩

theorem denomColsOf_shape (orgs : List Org) :
    ∀ c ∈ denomColsOf orgs, ∃ w : Option String, c = Col.denom w := by
  intro c hc
  rcases List.mem_append.mp hc with h | h
  · rcases List.mem_map.mp h with ⟨v, _, hv⟩
    exact ⟨some v, hv.symm⟩
  · rcases List.mem_singleton.mp h with rfl
    exact ⟨none, rfl⟩

theorem typeCols_nodup (orgs : List Org) : (typeCols orgs).Nodup := by
  unfold typeCols
  rw [List.nodup_append]
  refine ⟨?_, List.nodup_singleton _, ?_⟩
  · apply List.Nodup.map ?_ (List.nodup_dedup _)
    intro a b h
    simpa using h
  · intro x hx
    rcases List.mem_map.mp hx with ⟨v, _, hv⟩
    rw [← hv]
    simp

theorem denomColsOf_nodup (orgs : List Org) : (denomColsOf orgs).Nodup := by
  unfold denomColsOf
  rw [List.nodup_append]
  refine ⟨?_, List.nodup_singleton _, ?_⟩
  · apply List.Nodup.map ?_ (List.nodup_dedup _)
    intro a b h
    simpa using h
  · intro x hx
    rcases List.mem_map.mp hx with ⟨v, _, hv⟩
    rw [← hv]
    simp

theorem orgCols_nodup (orgs : List Org) : (orgCols orgs).Nodup := by
  unfold orgCols
  rw [List.nodup_append]
  refine ⟨typeCols_nodup orgs, denomColsOf_nodup orgs, ?_⟩
  intro x hxT hxD
  rcases typeCols_shape orgs x hxT with ⟨w, rfl⟩
  rcases denomColsOf_shape orgs _ hxD with ⟨w2, hw2⟩
  cases hw2

theorem typeCols_mem (orgs : List Org) (o : Org) (ho : o ∈ orgs) :
    Col.type o.otype ∈ typeCols orgs := by
  unfold typeCols
  rcases hot : o.otype with _ | v
  · apply List.mem_append_right
    simp [hot]
  · apply List.mem_append_left
    apply List.mem_map.mpr
    refine ⟨v, ?_, rfl⟩
    apply List.mem_dedup.mpr
    apply List.mem_filterMap.mpr
    exact ⟨o, ho, hot⟩

theorem denomColsOf_mem (orgs : List Org) (o : Org) (ho : o ∈ orgs) :
    Col.denom o.denom ∈ denomColsOf orgs := by
  unfold denomColsOf
  rcases hot : o.denom with _ | v
  · apply List.mem_append_right
    simp [hot]
  · apply List.mem_append_left
    apply List.mem_map.mpr
    refine ⟨v, ?_, rfl⟩
    apply List.mem_dedup.mpr
    apply List.mem_filterMap.mpr
    exact ⟨o, ho, hot⟩

theorem sumCols_typeCols_dummyRow (orgs : List Org) (o : Org)
    (ho : o ∈ orgs) : sumCols (typeCols orgs) (dummyRow o) = 1 := by
  have hcong : ∀ c ∈ typeCols orgs,
      dummyRow o c = if c = Col.type o.otype then 1 else 0 := by
    intro c hc
    rcases typeCols_shape orgs c hc with ⟨w, rfl⟩
    show (if w = o.otype then (1:ℚ) else 0) = _
    by_cases hw : w = o.otype
    · rw [if_pos hw, if_pos (by rw [hw])]
    · rw [if_neg hw, if_neg (by intro h; exact hw (by injection h))]
  unfold sumCols
  rw [List.map_congr_left hcong]
  exact sum_ite_eq_of_nodup 1 (typeCols orgs) (typeCols_nodup orgs)
    (Col.type o.otype) (typeCols_mem orgs o ho)

theorem sumCols_denomColsOf_dummyRow (orgs : List Org) (o : Org)
    (ho : o ∈ orgs) : sumCols (denomColsOf orgs) (dummyRow o) = 1 := by
  have hcong : ∀ c ∈ denomColsOf orgs,
      dummyRow o c = if c = Col.denom o.denom then 1 else 0 := by
    intro c hc
    rcases denomColsOf_shape orgs c hc with ⟨w, rfl⟩
    show (if w = o.denom then (1:ℚ) else 0) = _
    by_cases hw : w = o.denom
    · rw [if_pos hw, if_pos (by rw [hw])]
    · rw [if_neg hw, if_neg (by intro h; exact hw (by injection h))]
  unfold sumCols
  rw [List.map_congr_left hcong]
  exact sum_ite_eq_of_nodup 1 (denomColsOf orgs) (denomColsOf_nodup orgs)
    (Col.denom o.denom) (denomColsOf_mem orgs o ho)

/-- Each organization contributes exactly 2 to the grand total over the
dummy columns: 1 in its Type column and 1 in its Denom column. -/
theorem sumCols_orgCols_dummyRow (orgs : List Org) (o : Org)
    (ho : o ∈ orgs) : sumCols (orgCols orgs) (dummyRow o) = 2 := by
  unfold orgCols
  rw [sumCols_append, sumCols_typeCols_dummyRow orgs o ho,
    sumCols_denomColsOf_dummyRow orgs o ho]
  norm_num

/-- The grand total of the ZIP count table is twice the number of
organizations (each organization is counted once per categorical). -/
theorem grandTotal_zipCntTable (orgs : List Org) :
    grandTotal (orgCols orgs) (zipCntTable orgs) = 2 * (orgs.length : ℚ) := by
  unfold zipCntTable
  rw [grandTotal_groupSum]
  unfold grandTotal
  rw [List.map_map]
  have hcong : ∀ o ∈ orgs,
      ((fun r : Nat × Row Col => sumCols (orgCols orgs) r.2) ∘
        fun o => (o.zip, dummyRow o)) o = (2:ℚ) := by
    intro o ho
    show sumCols (orgCols orgs) (dummyRow o) = 2
    exact sumCols_orgCols_dummyRow orgs o ho
  rw [List.map_congr_left hcong, sum_map_const_q]
  ring

/-- When no denomination column name contains None (as with the renamed
short category values, whose NaN dummy column is named Denom_nan), the
None imputation is a no-op. -/
theorem impute_denoms_noop (orgs : List Org) (tbl : Table Col)
    (hnone : ((orgCols orgs).filter
        (fun c => strStarts "Denom_" (colName c))).filter
        (fun c => strContains (colName c) "None") = []) :
    impute_denoms_county_cnts colName (orgCols orgs) tbl
      = .ok (orgCols orgs, tbl) := by
  have hmem : Col.denom none ∈ (orgCols orgs).filter
      (fun c => strStarts "Denom_" (colName c)) := by
    apply List.mem_filter.mpr
    constructor
    · unfold orgCols
      apply List.mem_append_right
      unfold denomColsOf
      apply List.mem_append_right
      simp
    · decide
  have hne0 : ¬ (((orgCols orgs).filter
      (fun c => strStarts "Denom_" (colName c))).length = 0) := by
    intro hlen
    rw [List.length_eq_zero] at hlen
    rw [hlen] at hmem
    cases hmem
  simp only [impute_denoms_county_cnts]
  rw [if_neg hne0, hnone]

/-- filter_categorical with the default both argument keeps every
column. -/
theorem filter_categorical_both (cols : List Col) :
    filter_categorical cols "both" = .ok cols := by
  unfold filter_categorical
  rw [if_neg (by decide), if_neg (by decide), if_neg (by decide)]

/-- Successful run of get_county_cnts with categorical both and no
filtering: the guard passes, every relevant ZIP group has exact or
imputed ratios, no denomination column name contains None, and the
returned frame is the reapportioned county table with the FIPS axis
name; its grand total is twice the number of organizations. -/
theorem get_county_cnts_run (cw : Crosswalk) (orgs : List Org)
    (hcw : cw.map CWRow.zip ≠ [])
    (hguard : ¬ ((orgs.filter
      (fun o => (cw.map CWRow.zip).contains o.zip)).length < 10))
    (hex : ∀ z ∈ tblKeys (missing_zip_to_nearest (zipCntTable orgs) cw),
      ratioSum (zipGroup (relevantRows cw
          (tblKeys (missing_zip_to_nearest (zipCntTable orgs) cw))) z) = 1
        ∨ ratioSum (zipGroup (relevantRows cw
            (tblKeys (missing_zip_to_nearest (zipCntTable orgs) cw))) z) = 0)
    (hnone : ((orgCols orgs).filter
        (fun c => strStarts "Denom_" (colName c))).filter
        (fun c => strContains (colName c) "None") = []) :
    ∃ out, zip_cnts_to_fips cw (zipCntTable orgs) = .ok out
      ∧ grandTotal (orgCols orgs) out = 2 * (orgs.length : ℚ)
      ∧ get_county_cnts cw orgs "both" none none
          = .ok ⟨"FIPS", reindexCols (orgCols orgs), out⟩ := by
  obtain ⟨out, hok, hcons⟩ :=
    zip_cnts_to_fips_conserves (orgCols orgs) cw (zipCntTable orgs) hcw hex
  have htot : grandTotal (orgCols orgs) out = 2 * (orgs.length : ℚ) := by
    rw [hcons]
    exact grandTotal_zipCntTable orgs
  refine ⟨out, hok, htot, ?_⟩
  have hzip : orgs_to_zip_cnts cw orgs = .ok (zipCntTable orgs) := by
    unfold orgs_to_zip_cnts
    rw [if_neg hguard]
  have himp : impute_denoms_county_cnts colName (orgCols orgs) out
      = .ok (orgCols orgs, out) := impute_denoms_noop orgs out hnone
  have hfips : validate_fips (cw.map CWRow.fips) out = .ok () := by
    unfold validate_fips
    rw [if_pos]
    apply List.all_eq_true.mpr
    intro r hr
    have hk := (zip_cnts_to_fips_ok_keys cw (zipCntTable orgs) out hok).2
      r.1 (List.mem_map_of_mem Prod.fst hr)
    simpa using hk
  have htotv : validate_total "both" (grandTotal (orgCols orgs) out)
      orgs.length = .ok () := by
    unfold validate_total
    rw [if_pos]
    rw [htot]
    have h2 : (2 * (orgs.length:ℚ)) / (if ("both":String) = "both"
        then (2:ℚ) else 1) = (orgs.length:ℚ) := by
      rw [if_pos rfl]
      ring
    rw [h2]
    exact mathIsclose_self _
  unfold get_county_cnts
  rw [if_neg (by simp)]
  simp only [if_neg (show ¬ ((none : Option (List String)).isSome = true
      ∨ (none : Option (List String)).isSome = true) by simp),
    hzip, hok, himp, filter_categorical_both, hfips, htotv]

theorem orgs10_keys : tblKeys (missing_zip_to_nearest (zipCntTable orgs10)
    cwEx) = [1] := by decide

theorem orgs10_hex : ∀ z ∈ tblKeys (missing_zip_to_nearest
      (zipCntTable orgs10) cwEx),
    ratioSum (zipGroup (relevantRows cwEx (tblKeys (missing_zip_to_nearest
        (zipCntTable orgs10) cwEx))) z) = 1
      ∨ ratioSum (zipGroup (relevantRows cwEx
          (tblKeys (missing_zip_to_nearest (zipCntTable orgs10) cwEx))) z)
        = 0 := by
  intro z hz
  rw [orgs10_keys] at hz ⊢
  have hz1 : z = 1 := by simpa using hz
  rw [hz1]
  left
  norm_num [cwEx, relevantRows, zipGroup, ratioSum, List.filter]

theorem orgs10_hnone : ((orgCols orgs10).filter
    (fun c => strStarts "Denom_" (colName c))).filter
    (fun c => strContains (colName c) "None") = [] := by decide

/-- C5 (amended): when every relevant ZIP group's OTH ratios sum exactly
to 1, or sum to 0 and are imputed to an even split, the redistribution
conserves total mass: get_county_cnts succeeds, the grand total of the
county table is twice the number of source organizations (each
organization being counted once per categorical with the both option),
and the math.isclose total validation passes; get_county_cnts raises
ValueError whenever that check fails. -/
theorem C5_total_mass_conserved (cw : Crosswalk) (orgs : List Org)
    (hcw : cw.map CWRow.zip ≠ [])
    (hguard : ¬ ((orgs.filter
      (fun o => (cw.map CWRow.zip).contains o.zip)).length < 10))
    (hex : ∀ z ∈ tblKeys (missing_zip_to_nearest (zipCntTable orgs) cw),
      ratioSum (zipGroup (relevantRows cw
          (tblKeys (missing_zip_to_nearest (zipCntTable orgs) cw))) z) = 1
        ∨ ratioSum (zipGroup (relevantRows cw
            (tblKeys (missing_zip_to_nearest (zipCntTable orgs) cw))) z)
          = 0)
    (hnone : ((orgCols orgs).filter
        (fun c => strStarts "Denom_" (colName c))).filter
        (fun c => strContains (colName c) "None") = []) :
    (∃ out, zip_cnts_to_fips cw (zipCntTable orgs) = .ok out
      ∧ grandTotal (orgCols orgs) out = 2 * (orgs.length : ℚ)
      ∧ get_county_cnts cw orgs "both" none none
          = .ok ⟨"FIPS", reindexCols (orgCols orgs), out⟩)
    ∧ (∀ (categorical : String) (t : ℚ) (n : ℕ),
        mathIsclose (t / (if categorical = "both" then 2 else 1)) (n:ℚ)
          = false →
        validate_total categorical t n
          = .error "total county counts does not match JData orgs") :=
  ⟨get_county_cnts_run cw orgs hcw hguard hex hnone,
   fun categorical t n h => validate_total_error categorical t n h⟩

/-- Witness for C5 at the concrete crosswalk cwEx (ratios 3/10 and 7/10
summing exactly to 1) and the ten organizations orgs10. -/
theorem C5_total_mass_conserved_witness :
    ((cwEx.map CWRow.zip ≠ [])
      ∧ (¬ ((orgs10.filter (fun o =>
          (cwEx.map CWRow.zip).contains o.zip)).length < 10)))
    ∧ ((∃ out, zip_cnts_to_fips cwEx (zipCntTable orgs10) = .ok out
        ∧ grandTotal (orgCols orgs10) out = 2 * (orgs10.length : ℚ)
        ∧ get_county_cnts cwEx orgs10 "both" none none
            = .ok ⟨"FIPS", reindexCols (orgCols orgs10), out⟩)
      ∧ (∀ (categorical : String) (t : ℚ) (n : ℕ),
          mathIsclose (t / (if categorical = "both" then 2 else 1)) (n:ℚ)
            = false →
          validate_total categorical t n
            = .error "total county counts does not match JData orgs")) := by
  have hcw : cwEx.map CWRow.zip ≠ [] := by decide
  have hguard : ¬ ((orgs10.filter (fun o =>
      (cwEx.map CWRow.zip).contains o.zip)).length < 10) := by decide
  exact ⟨⟨hcw, hguard⟩,
    C5_total_mass_conserved cwEx orgs10 hcw hguard orgs10_hex orgs10_hnone⟩

/-- C6: the county statistics returned by get_county_cnts are keyed by
FIPS codes: every index value of a returned frame is a FIPS code present
in the crosswalk FIPS column, the index axis is named FIPS, and the
validation step raises ValueError on any table whose index holds a value
that is not a crosswalk FIPS code. -/
theorem C6_fips_keyed (cw : Crosswalk) (orgs : List Org)
    (categorical : String) (incl excl : Option (List String))
    (res : CntyFrame)
    (h : get_county_cnts cw orgs categorical incl excl = .ok res) :
    (∀ f ∈ tblKeys res.rows, f ∈ cw.map CWRow.fips)
    ∧ res.indexName = "FIPS"
    ∧ (∀ (cwFips : List Nat) (tbl : Table Col),
        ¬ (tbl.all (fun r => cwFips.contains r.1) = true) →
        validate_fips cwFips tbl
          = .error "County FIPS codes index not valid") := by
  have hval : ∀ (cwFips : List Nat) (tbl : Table Col),
      ¬ (tbl.all (fun r => cwFips.contains r.1) = true) →
      validate_fips cwFips tbl
        = .error "County FIPS codes index not valid" := by
    intro cwFips tbl hneg
    unfold validate_fips
    rw [if_neg hneg]
  unfold get_county_cnts at h
  by_cases h12 : incl.isSome ∧ excl.isSome
  · rw [if_pos h12] at h
    cases h
  rw [if_neg h12] at h
  split at h
  · cases h
  split at h
  · cases h
  split at h
  · cases h
  split at h
  · cases h
  split at h
  · cases h
  split at h
  · cases h
  split at h
  · cases h
  rename_i orgs2 heq1 zipTbl heq2 cnty heq3 cols1 cnty1 heq4 cols2 heq5
    u heq6 u2 heq7
  injection h with h
  refine ⟨?_, ?_, hval⟩
  · intro f hf
    unfold validate_fips at u
    by_cases hall : cnty.all (fun r => (cw.map CWRow.fips).contains r.1)
        = true
    · rw [← h] at hf
      have hf2 : f ∈ tblKeys cnty := hf
      rcases List.mem_map.mp hf2 with ⟨r, hr, hrf⟩
      have hcont := List.all_eq_true.mp hall r hr
      rw [← hrf]
      simpa using hcont
    · rw [if_neg hall] at u
      cases u
  · rw [← h]

/-- Witness for C6: a successful concrete run of get_county_cnts, whose
frame is FIPS keyed, plus the validation error at an invalid index. -/
theorem C6_fips_keyed_witness :
    (∃ res, get_county_cnts cwEx orgs10 "both" none none = .ok res
      ∧ (∀ f ∈ tblKeys res.rows, f ∈ cwEx.map CWRow.fips)
      ∧ res.indexName = "FIPS")
    ∧ (¬ (([((99:ℕ), ((fun _ => (0:ℚ)) : Row Col))] : Table Col).all
          (fun r => ([10] : List Nat).contains r.1) = true)
      ∧ validate_fips [10] ([(99, fun _ => 0)] : Table Col)
          = .error "County FIPS codes index not valid") := by
  have hcw : cwEx.map CWRow.zip ≠ [] := by decide
  have hguard : ¬ ((orgs10.filter (fun o =>
      (cwEx.map CWRow.zip).contains o.zip)).length < 10) := by decide
  obtain ⟨out, _, _, hrun⟩ :=
    get_county_cnts_run cwEx orgs10 hcw hguard orgs10_hex orgs10_hnone
  have hbad : ¬ (([((99:ℕ), ((fun _ => (0:ℚ)) : Row Col))] : Table Col).all
      (fun r => ([10] : List Nat).contains r.1) = true) := by decide
  refine ⟨⟨_, hrun,
      (C6_fips_keyed cwEx orgs10 "both" none none _ hrun).1,
      (C6_fips_keyed cwEx orgs10 "both" none none _ hrun).2.1⟩,
    hbad,
    (C6_fips_keyed cwEx orgs10 "both" none none _ hrun).2.2 [10] _ hbad⟩

/-- C5 counterexample: with OTH ratios summing to 1 + 5e-6 (within the
np.isclose tolerance, so the ratio check passes), the county grand total
is 2 + 1e-5 while the ZIP table total is 2: mass is not conserved under
approximately-1 ratios, and the stricter math.isclose total check
(rel_tol 1e-9) raises ValueError instead. -/
theorem C5_approx_ratios_inflate :
    isclose1 (ratioSum (zipGroup (relevantRows cwC5 (tblKeys t1)) 1)) = true
    ∧ (zip_cnts_to_fips cwC5 t1).map (fun out => grandTotal [()] out)
        = .ok (2 + 1/100000)
    ∧ grandTotal [()] t1 = 2
    ∧ mathIsclose ((2 + 1/100000 : ℚ) / 2) 1 = false
    ∧ validate_total "both" (2 + 1/100000) 1
        = .error "total county counts does not match JData orgs" := by
  have hsum : ratioSum (zipGroup (relevantRows cwC5 (tblKeys t1)) 1)
      = 1 + 1/200000 := by
    norm_num [cwC5, t1, tblKeys, relevantRows, zipGroup, ratioSum,
      List.filter]
  have hiso : isclose1 (ratioSum (zipGroup
      (relevantRows cwC5 (tblKeys t1)) 1)) = true := by
    rw [hsum]
    unfold isclose1
    rw [decide_eq_true_eq,
      show (1 + 1/200000 - 1 : ℚ) = 1/200000 by norm_num,
      abs_of_pos (by norm_num)]
    norm_num
  have hnd : (tblKeys t1).Nodup := by decide
  have hsub : ∀ k ∈ tblKeys t1, k ∈ cwC5.map CWRow.zip := by decide
  have hgood : ∀ z ∈ tblKeys t1,
      isclose1 (ratioSum (zipGroup (relevantRows cwC5 (tblKeys t1)) z))
        = true
      ∨ ratioSum (zipGroup (relevantRows cwC5 (tblKeys t1)) z) = 0 := by
    intro z hz
    have hz1 : z = 1 := by
      simpa [t1, tblKeys] using hz
    rw [hz1]
    exact Or.inl hiso
  obtain ⟨out, hok, hmem, hform⟩ :=
    zip_cnts_to_fips_spec cwC5 t1 hnd hsub hgood
  have hone : ∀ v : Row Unit, sumCols [()] v = v () := by
    intro v
    simp [sumCols]
  have hrel : (relevantRows cwC5 (tblKeys t1)).map CWRow.fips = [10, 20] := by
    norm_num [cwC5, t1, tblKeys, relevantRows, List.filter]
  have hkeys : ∀ f, f ∈ tblKeys out ↔ f ∈ [10, 20] := by
    intro f
    rw [hmem f, hrel]
  have hnd_out := (zip_cnts_to_fips_ok_keys cwC5 t1 out hok).1
  have hperm : (tblKeys out).Perm [10, 20] :=
    (List.perm_ext_iff_of_nodup hnd_out (by decide)).mpr hkeys
  have hlook : lookupRow t1 1 () = 2 := by
    norm_num [t1, lookupRow, List.find?]
  have hfil10 : (relevantRows cwC5 (tblKeys t1)).filter
      (fun r => r.fips == 10) = [⟨1, 10, 1/2 + 1/200000⟩] := rfl
  have hfil20 : (relevantRows cwC5 (tblKeys t1)).filter
      (fun r => r.fips == 20) = [⟨1, 20, 1/2⟩] := rfl
  have hg10 : lookupRow out 10 () = 1 + 1/100000 := by
    rw [hform 10 ((hkeys 10).mpr (by decide)) (), hfil10]
    show groupWeight (relevantRows cwC5 (tblKeys t1)) 1
        ⟨1, 10, 1/2 + 1/200000⟩ * lookupRow t1 1 () + 0 = _
    unfold groupWeight
    rw [if_pos hiso, hlook]
    norm_num
  have hg20 : lookupRow out 20 () = 1 := by
    rw [hform 20 ((hkeys 20).mpr (by decide)) (), hfil20]
    show groupWeight (relevantRows cwC5 (tblKeys t1)) 1
        ⟨1, 20, 1/2⟩ * lookupRow t1 1 () + 0 = _
    unfold groupWeight
    rw [if_pos hiso, hlook]
    norm_num
  have hmath : mathIsclose ((2 + 1/100000 : ℚ) / 2) 1 = false := by
    unfold mathIsclose
    rw [decide_eq_false_iff_not]
    intro hcl
    rw [show ((2 + 1/100000 : ℚ)/2 - 1) = 1/200000 by norm_num,
      abs_of_pos (by norm_num : (0:ℚ) < 1/200000),
      abs_of_pos (by norm_num : (0:ℚ) < (2 + 1/100000)/2),
      abs_of_pos (by norm_num : (0:ℚ) < 1),
      max_eq_left (by norm_num : (1:ℚ) ≤ (2 + 1/100000)/2)] at hcl
    norm_num at hcl
  refine ⟨hiso, ?_, ?_, hmath, ?_⟩
  · rw [hok]
    show Except.ok (grandTotal [()] out) = _
    rw [grandTotal_keys [()] out hnd_out,
      (hperm.map (fun k => sumCols [()] (lookupRow out k))).sum_eq]
    rw [show List.map (fun k => sumCols [()] (lookupRow out k)) [10, 20]
        = [sumCols [()] (lookupRow out 10), sumCols [()] (lookupRow out 20)]
        from rfl]
    rw [List.sum_cons, List.sum_cons, List.sum_nil, hone, hone, hg10, hg20]
    norm_num
  · norm_num [t1, grandTotal, sumCols]
  · have hm2 : mathIsclose ((2 + 1/100000 : ℚ)
        / (if ("both":String) = "both" then 2 else 1)) ((1:ℕ):ℚ) = false := by
      rw [if_pos rfl]
      simpa using hmath
    exact validate_total_error "both" (2 + 1/100000) 1 hm2

end JDC
